import Mathlib

/-!
# Occupancy-grid editor: verification of the core spec

Shallow embedding of the grid state and spatial-transform engine and of the
procedural generators of the occupancy-editor repository, together with
proofs and refutations of the spec claims.  Machine integers of the source
are modelled as Lean Int, JS floating-point numbers as rationals, and the
flat Int8Array grid buffers as lists of integers indexed row-major.
-/

namespace OccupancyEditor

/-! ### Cell model (src/types.ts) -/

def CELL_FREE : Int := 0
def CELL_OCCUPIED : Int := 100
def CELL_UNKNOWN : Int := -1

/-- Row-major flattened grid buffer, logical index y*width+x (models Int8Array). -/
abbrev Buffer := List Int

/-- A 2D point with JS-number coordinates (used for metadata start/goal). -/
structure Pt where
  x : ℚ
  y : ℚ
deriving DecidableEq, Repr

/-- World origin of internal cell (0,0): position and rotation. -/
structure Origin where
  x : ℚ
  y : ℚ
  theta : ℚ
deriving DecidableEq, Repr

/-- GridMetadata of src/types.ts. -/
structure GridMetadata where
  resolution : ℚ
  origin : Origin
  start : Option Pt
  goal : Option Pt
deriving DecidableEq, Repr

/-- GridState of src/types.ts: dimensions, flattened data, metadata. -/
structure GridState where
  width : Nat
  height : Nat
  data : Buffer
  metadata : GridMetadata
deriving DecidableEq, Repr

/-! ### Coordinate transform (src/components/GridCanvas.tsx, displayToInternal /
internalToDisplay) -/

/-- displayToInternal of GridCanvas.tsx: add the floored center, then floor. -/
def displayToInternal (activeW activeH : Nat) (dx dy : ℚ) : Int × Int :=
  let centerX : Nat := activeW / 2
  let centerY : Nat := activeH / 2
  (⌊dx + (centerX : ℚ)⌋, ⌊dy + (centerY : ℚ)⌋)

/-- internalToDisplay of GridCanvas.tsx: subtract the floored center. -/
def internalToDisplay (activeW activeH : Nat) (ix iy : Int) : Int × Int :=
  let centerX : Nat := activeW / 2
  let centerY : Nat := activeH / 2
  (ix - centerX, iy - centerY)

/-! ### Origin shift (unnamed export module, shiftGridToStartOrigin) -/

/-- shiftGridToStartOrigin: if a start is present, recompute the world origin so
that the start cell's world coordinate becomes (0,0); buffer and indices are
untouched.  Without a start this is the identity. -/
def shiftGridToStartOrigin (data : Buffer) (width height : Nat)
    (metadata : GridMetadata) : GridState :=
  match metadata.start with
  | none => ⟨width, height, data, metadata⟩
  | some s =>
      let res := metadata.resolution
      let newMetadata : GridMetadata :=
        { metadata with
          origin := ⟨-(s.x * res), -(s.y * res), metadata.origin.theta⟩
          start := some ⟨s.x, s.y⟩
          goal := metadata.goal.map fun g => ⟨g.x, g.y⟩ }
      ⟨width, height, data, newMetadata⟩

/-- C8: for all integers (x,y) with 0 ≤ x < width and 0 ≤ y < height,
displayToInternal (internalToDisplay (x,y)) = (x,y): the two center-based
coordinate maps are exact inverses on integer inputs. -/
theorem coordinate_roundtrip (width height : Nat) (x y : Int)
    (hx0 : 0 ≤ x) (hx : x < (width : Int))
    (hy0 : 0 ≤ y) (hy : y < (height : Int)) :
    displayToInternal width height
      ((internalToDisplay width height x y).1 : ℚ)
      ((internalToDisplay width height x y).2 : ℚ) = (x, y) := by
  have key : ∀ (z : Int) (c : Nat), ⌊((z - (c : Int) : Int) : ℚ) + (c : ℚ)⌋ = z := by
    intro z c
    have h : ((z - (c : Int) : Int) : ℚ) + (c : ℚ) = (z : ℚ) := by push_cast; ring
    rw [h, Int.floor_intCast]
  simp only [displayToInternal, internalToDisplay]
  rw [key x (width / 2), key y (height / 2)]

/-- Witness for C8 at width=5, height=4, (x,y)=(3,2). -/
theorem coordinate_roundtrip_witness :
    (0 : Int) ≤ 3 ∧ (3 : Int) < (5 : Nat) ∧ (0 : Int) ≤ 2 ∧ (2 : Int) < (4 : Nat) ∧
    displayToInternal 5 4
      ((internalToDisplay 5 4 3 2).1 : ℚ)
      ((internalToDisplay 5 4 3 2).2 : ℚ) = (3, 2) :=
  ⟨by norm_num, by norm_num, by norm_num, by norm_num,
    coordinate_roundtrip 5 4 3 2 (by norm_num) (by norm_num) (by norm_num) (by norm_num)⟩

/-- C4: when a start (sx,sy) is defined, shiftGridToStartOrigin keeps buffer,
width, height and the stored start/goal indices, and sets the origin to
(-(sx*r), -(sy*r)) with the rotation unchanged; when no start is defined it
is the identity. -/
theorem shift_origin_to_start (data : Buffer) (width height : Nat)
    (m : GridMetadata) :
    (∀ s, m.start = some s →
      (shiftGridToStartOrigin data width height m).data = data ∧
      (shiftGridToStartOrigin data width height m).width = width ∧
      (shiftGridToStartOrigin data width height m).height = height ∧
      (shiftGridToStartOrigin data width height m).metadata.start = m.start ∧
      (shiftGridToStartOrigin data width height m).metadata.goal = m.goal ∧
      (shiftGridToStartOrigin data width height m).metadata.origin =
        ⟨-(s.x * m.resolution), -(s.y * m.resolution), m.origin.theta⟩) ∧
    (m.start = none → shiftGridToStartOrigin data width height m = ⟨width, height, data, m⟩) := by
  constructor
  · intro s hs
    cases hg : m.goal <;> simp [shiftGridToStartOrigin, hs, hg]
  · intro hs
    simp [shiftGridToStartOrigin, hs]

/-- Witness for C4: a 1x1 grid with start (2,3), resolution 1/2. -/
theorem shift_origin_to_start_witness :
    let m : GridMetadata := ⟨1/2, ⟨5, 6, 7⟩, some ⟨2, 3⟩, some ⟨0, 0⟩⟩
    (shiftGridToStartOrigin [0] 1 1 m).data = [0] ∧
    (shiftGridToStartOrigin [0] 1 1 m).width = 1 ∧
    (shiftGridToStartOrigin [0] 1 1 m).height = 1 ∧
    (shiftGridToStartOrigin [0] 1 1 m).metadata.start = m.start ∧
    (shiftGridToStartOrigin [0] 1 1 m).metadata.goal = m.goal ∧
    (shiftGridToStartOrigin [0] 1 1 m).metadata.origin =
      ⟨-(2 * (1/2 : ℚ)), -(3 * (1/2 : ℚ)), 7⟩ :=
  (shift_origin_to_start [0] 1 1 ⟨1/2, ⟨5, 6, 7⟩, some ⟨2, 3⟩, some ⟨0, 0⟩⟩).1 ⟨2, 3⟩ rfl

/-! ### Resize with offset (src/hooks/useGrid.ts, resizeGrid) -/

/-- Body of the inner x-loop of resizeGrid: copy old cell (x,y) to
(x+originX, y+originY) when the destination column is in range. -/
def resizeCell (gridData : Buffer) (width newWidth : Nat) (originX originY : Int)
    (y : Nat) (buf2 : Buffer) (x : Nat) : Buffer :=
  let destX : Int := (x : Int) + originX
  let destY : Int := (y : Int) + originY
  if destX < 0 ∨ (newWidth : Int) ≤ destX then buf2
  else buf2.set (destY * newWidth + destX).toNat (gridData.getD (y * width + x) 0)

/-- Body of the outer y-loop of resizeGrid: skip the row when the destination
row is out of range, else copy each cell of the row. -/
def resizeRow (gridData : Buffer) (width newWidth newHeight : Nat)
    (originX originY : Int) (buf : Buffer) (y : Nat) : Buffer :=
  let destY : Int := (y : Int) + originY
  if destY < 0 ∨ (newHeight : Int) ≤ destY then buf
  else (List.range width).foldl (resizeCell gridData width newWidth originX originY y) buf

/-- resizeGrid of useGrid.ts: new FREE-filled buffer of the requested size, then
copy every old cell shifted by (originX, originY), silently clipping. -/
def resizeGrid (gridData : Buffer) (width height newWidth newHeight : Nat)
    (originX originY : Int) : Buffer :=
  (List.range height).foldl (resizeRow gridData width newWidth newHeight originX originY)
    (List.replicate (newWidth * newHeight) CELL_FREE)

lemma getD_set_eq (l : Buffer) (i : Nat) (v : Int) (h : i < l.length) :
    (l.set i v).getD i 0 = v := by
  rw [List.getD_eq_getElem?_getD, List.getElem?_set_self h]; rfl

lemma getD_set_ne (l : Buffer) (i j : Nat) (v : Int) (h : i ≠ j) :
    (l.set i v).getD j 0 = l.getD j 0 := by
  rw [List.getD_eq_getElem?_getD, List.getElem?_set_ne h, ← List.getD_eq_getElem?_getD]

lemma foldl_length {β : Type} (f : Buffer → β → Buffer)
    (hf : ∀ b x, (f b x).length = b.length) :
    ∀ (l : List β) (buf : Buffer), (l.foldl f buf).length = buf.length := by
  intro l
  induction l with
  | nil => intro buf; rfl
  | cons a t ih => intro buf; rw [List.foldl_cons, ih, hf]

lemma resizeCell_length (gridData : Buffer) (width newWidth : Nat)
    (originX originY : Int) (y : Nat) (buf2 : Buffer) (x : Nat) :
    (resizeCell gridData width newWidth originX originY y buf2 x).length = buf2.length := by
  simp only [resizeCell]
  split <;> simp

lemma resizeRow_length (gridData : Buffer) (width newWidth newHeight : Nat)
    (originX originY : Int) (buf : Buffer) (y : Nat) :
    (resizeRow gridData width newWidth newHeight originX originY buf y).length = buf.length := by
  simp only [resizeRow]
  split
  · rfl
  · exact foldl_length _ (resizeCell_length gridData width newWidth originX originY y) _ buf

lemma index_lt_size {w h dx dy : Nat} (hdx : dx < w) (hdy : dy < h) :
    dy * w + dx < w * h :=
  calc dy * w + dx < dy * w + w := by omega
    _ = (dy + 1) * w := by ring
    _ ≤ h * w := Nat.mul_le_mul_right w (by omega)
    _ = w * h := Nat.mul_comm h w

lemma rowmajor_inj_int {w a b c d : Int} (hb0 : 0 ≤ b) (hb : b < w)
    (hd0 : 0 ≤ d) (hd : d < w) (h : a * w + b = c * w + d) : a = c ∧ b = d := by
  have hac : a = c := by
    by_contra hne
    have h2 : 1 ≤ a - c ∨ a - c ≤ -1 := by omega
    have key : (a - c) * w = d - b := by linarith [h]
    rcases h2 with h2 | h2
    · have : w ≤ (a - c) * w := by nlinarith
      omega
    · have : (a - c) * w ≤ -w := by nlinarith
      omega
  refine ⟨hac, ?_⟩
  rw [hac] at h
  linarith [h]

lemma destIndex_eq_iff {newWidth newHeight : Nat} {destY destX : Int} {dy dx : Nat}
    (h1 : 0 ≤ destY) (h2 : destY < (newHeight : Int))
    (h3 : 0 ≤ destX) (h4 : destX < (newWidth : Int))
    (hdy : dy < newHeight) (hdx : dx < newWidth) :
    (destY * newWidth + destX).toNat = dy * newWidth + dx ↔
      (destY = (dy : Int) ∧ destX = (dx : Int)) := by
  constructor
  · intro h
    have hInt : destY * (newWidth : Int) + destX = (dy : Int) * newWidth + (dx : Int) := by
      have hnn : 0 ≤ destY * (newWidth : Int) + destX := by
        have : 0 ≤ destY * (newWidth : Int) := by positivity
        omega
      have := Int.toNat_of_nonneg hnn
      rw [h] at this
      push_cast at this
      omega
    exact rowmajor_inj_int h3 h4 (by positivity) (by exact_mod_cast hdx) hInt
  · rintro ⟨hy, hx⟩
    rw [hy, hx]
    have : (dy : Int) * (newWidth : Int) + (dx : Int) = ((dy * newWidth + dx : Nat) : Int) := by
      push_cast; ring
    rw [this, Int.toNat_natCast]

lemma resizeCell_fold_getD (gridData : Buffer) (width newWidth newHeight : Nat)
    (originX originY : Int) (y dx dy : Nat)
    (hdx : dx < newWidth) (hdy : dy < newHeight)
    (hy0 : 0 ≤ (y : Int) + originY) (hy1 : (y : Int) + originY < (newHeight : Int)) :
    ∀ (n : Nat) (buf : Buffer), buf.length = newWidth * newHeight →
    ((List.range n).foldl (resizeCell gridData width newWidth originX originY y) buf).getD
        (dy * newWidth + dx) 0 =
      if (y : Int) + originY = (dy : Int) ∧ 0 ≤ (dx : Int) - originX ∧
          (dx : Int) - originX < (n : Int) then
        gridData.getD (y * width + ((dx : Int) - originX).toNat) 0
      else buf.getD (dy * newWidth + dx) 0 := by
  intro n
  induction n with
  | zero =>
      intro buf _
      rw [List.range_zero, List.foldl_nil, if_neg]
      omega
  | succ n ih =>
      intro buf hlen
      rw [List.range_succ, List.foldl_append, List.foldl_cons, List.foldl_nil]
      have hBlen : ((List.range n).foldl
          (resizeCell gridData width newWidth originX originY y) buf).length =
          newWidth * newHeight := by
        rw [foldl_length _ (resizeCell_length gridData width newWidth originX originY y), hlen]
      set B := (List.range n).foldl (resizeCell gridData width newWidth originX originY y) buf
        with hB
      unfold resizeCell
      by_cases hguard : ((n : Int) + originX < 0 ∨ (newWidth : Int) ≤ (n : Int) + originX)
      · rw [if_pos hguard, ih buf hlen]
        apply if_congr _ rfl rfl
        omega
      · rw [if_neg hguard]
        push_neg at hguard
        by_cases hx : (dx : Int) - originX = (n : Int)
        · have hdestx : (n : Int) + originX = (dx : Int) := by omega
          by_cases hyy : (y : Int) + originY = (dy : Int)
          · have hidx : (((y : Int) + originY) * newWidth + ((n : Int) + originX)).toNat =
                dy * newWidth + dx := by
              rw [destIndex_eq_iff hy0 hy1 hguard.1 hguard.2 hdy hdx]
              exact ⟨hyy, hdestx⟩
            rw [hidx, getD_set_eq _ _ _ (by rw [hBlen]; exact index_lt_size hdx hdy)]
            rw [if_pos ⟨hyy, by omega, by omega⟩]
            congr 1
            omega
          · have hidx : (((y : Int) + originY) * newWidth + ((n : Int) + originX)).toNat ≠
                dy * newWidth + dx := by
              rw [Ne, destIndex_eq_iff hy0 hy1 hguard.1 hguard.2 hdy hdx]
              intro hc
              exact hyy hc.1
            rw [getD_set_ne _ _ _ _ hidx, ih buf hlen, if_neg (by omega), if_neg (by omega)]
        · have hidx : (((y : Int) + originY) * newWidth + ((n : Int) + originX)).toNat ≠
              dy * newWidth + dx := by
            rw [Ne, destIndex_eq_iff hy0 hy1 hguard.1 hguard.2 hdy hdx]
            intro hc
            omega
          rw [getD_set_ne _ _ _ _ hidx, ih buf hlen]
          apply if_congr _ rfl rfl
          omega

lemma resizeRow_getD (gridData : Buffer) (width newWidth newHeight : Nat)
    (originX originY : Int) (y dx dy : Nat)
    (hdx : dx < newWidth) (hdy : dy < newHeight)
    (buf : Buffer) (hlen : buf.length = newWidth * newHeight) :
    (resizeRow gridData width newWidth newHeight originX originY buf y).getD
        (dy * newWidth + dx) 0 =
      if (y : Int) + originY = (dy : Int) ∧ 0 ≤ (dx : Int) - originX ∧
          (dx : Int) - originX < (width : Int) then
        gridData.getD (y * width + ((dx : Int) - originX).toNat) 0
      else buf.getD (dy * newWidth + dx) 0 := by
  unfold resizeRow
  by_cases hguard : ((y : Int) + originY < 0 ∨ (newHeight : Int) ≤ (y : Int) + originY)
  · rw [if_pos hguard, if_neg]
    omega
  · rw [if_neg hguard]
    push_neg at hguard
    exact resizeCell_fold_getD gridData width newWidth newHeight originX originY y dx dy
      hdx hdy hguard.1 hguard.2 width buf hlen

lemma resizeRow_fold_getD (gridData : Buffer) (width newWidth newHeight : Nat)
    (originX originY : Int) (dx dy : Nat)
    (hdx : dx < newWidth) (hdy : dy < newHeight) :
    ∀ (k : Nat) (buf : Buffer), buf.length = newWidth * newHeight →
    ((List.range k).foldl (resizeRow gridData width newWidth newHeight originX originY)
        buf).getD (dy * newWidth + dx) 0 =
      if 0 ≤ (dy : Int) - originY ∧ (dy : Int) - originY < (k : Int) ∧
          0 ≤ (dx : Int) - originX ∧ (dx : Int) - originX < (width : Int) then
        gridData.getD ((((dy : Int) - originY).toNat) * width +
          ((dx : Int) - originX).toNat) 0
      else buf.getD (dy * newWidth + dx) 0 := by
  intro k
  induction k with
  | zero =>
      intro buf _
      rw [List.range_zero, List.foldl_nil, if_neg]
      omega
  | succ k ih =>
      intro buf hlen
      rw [List.range_succ, List.foldl_append, List.foldl_cons, List.foldl_nil]
      have hBlen : ((List.range k).foldl
          (resizeRow gridData width newWidth newHeight originX originY) buf).length =
          newWidth * newHeight := by
        rw [foldl_length _ (resizeRow_length gridData width newWidth newHeight originX originY),
          hlen]
      rw [resizeRow_getD gridData width newWidth newHeight originX originY k dx dy hdx hdy _
        hBlen, ih buf hlen]
      by_cases hyy : (dy : Int) - originY = (k : Int)
      · rw [if_neg (show ¬(0 ≤ (dy : Int) - originY ∧ (dy : Int) - originY < (k : Int) ∧
            0 ≤ (dx : Int) - originX ∧ (dx : Int) - originX < (width : Int)) by omega)]
        have hk : ((dy : Int) - originY).toNat = k := by omega
        rw [hk]
        exact if_congr (by omega) rfl rfl
      · rw [if_neg (show ¬((k : Int) + originY = (dy : Int) ∧ 0 ≤ (dx : Int) - originX ∧
            (dx : Int) - originX < (width : Int)) by omega)]
        apply if_congr (by omega) rfl rfl

lemma resizeGrid_length (gridData : Buffer) (width height newWidth newHeight : Nat)
    (originX originY : Int) :
    (resizeGrid gridData width height newWidth newHeight originX originY).length =
      newWidth * newHeight := by
  unfold resizeGrid
  rw [foldl_length _ (resizeRow_length gridData width newWidth newHeight originX originY),
    List.length_replicate]

lemma getD_replicate_free {n i : Nat} (h : i < n) :
    (List.replicate n CELL_FREE).getD i 0 = CELL_FREE := by
  rw [List.getD_eq_getElem _ _ (by simpa using h)]
  simp

/-- Pointwise characterization of resizeGrid: the destination cell (dx,dy) holds
the source cell (dx-originX, dy-originY) when that source cell exists, else FREE. -/
lemma resizeGrid_getD (gridData : Buffer) (width height newWidth newHeight : Nat)
    (originX originY : Int) (dx dy : Nat)
    (hdx : dx < newWidth) (hdy : dy < newHeight) :
    (resizeGrid gridData width height newWidth newHeight originX originY).getD
        (dy * newWidth + dx) 0 =
      if 0 ≤ (dy : Int) - originY ∧ (dy : Int) - originY < (height : Int) ∧
          0 ≤ (dx : Int) - originX ∧ (dx : Int) - originX < (width : Int) then
        gridData.getD ((((dy : Int) - originY).toNat) * width +
          ((dx : Int) - originX).toNat) 0
      else CELL_FREE := by
  unfold resizeGrid
  rw [resizeRow_fold_getD gridData width newWidth newHeight originX originY dx dy hdx hdy
    height _ (by rw [List.length_replicate])]
  by_cases h : (0 ≤ (dy : Int) - originY ∧ (dy : Int) - originY < (height : Int) ∧
      0 ≤ (dx : Int) - originX ∧ (dx : Int) - originX < (width : Int))
  · rw [if_pos h, if_pos ⟨h.1, h.2.1, h.2.2.1, h.2.2.2⟩]
  · rw [if_neg h, if_neg h]
    exact getD_replicate_free (index_lt_size hdx hdy)

/-- resize(w,h,0,0) returns a buffer equal to the current one. -/
lemma resizeGrid_identity (gridData : Buffer) (width height : Nat)
    (hlen : gridData.length = width * height) :
    resizeGrid gridData width height width height 0 0 = gridData := by
  apply List.ext_getElem
  · rw [resizeGrid_length, hlen]
  · intro i h1 h2
    rw [resizeGrid_length] at h1
    have hw : 0 < width := by
      rcases Nat.eq_zero_or_pos width with h | h
      · subst h; simp at h1
      · exact h
    obtain ⟨dx, dy, hdx, hdy, hi⟩ :
        ∃ dx dy, dx < width ∧ dy < height ∧ dy * width + dx = i :=
      ⟨i % width, i / width, Nat.mod_lt i hw, Nat.div_lt_of_lt_mul h1,
        by rw [Nat.mul_comm]; exact Nat.div_add_mod i width⟩
    have hchar := resizeGrid_getD gridData width height width height 0 0 dx dy hdx hdy
    rw [if_pos ⟨by omega, by omega, by omega, by omega⟩] at hchar
    simp only [sub_zero, Int.toNat_natCast] at hchar
    rw [hi] at hchar
    rw [List.getD_eq_getElem _ _ (by rw [resizeGrid_length]; exact h1)] at hchar
    rw [List.getD_eq_getElem _ _ (by rw [hlen]; exact h1)] at hchar
    exact hchar

/-- C1: resize produces a buffer of length newWidth*newHeight that is FREE
everywhere except where an old cell lands, resize(w,h,0,0) is byte-for-byte
the identity, and growing a 3x3 all-OCCUPIED buffer to 5x5 with offsets (1,1)
yields FREE everywhere except the OCCUPIED inner 3x3 block. -/
theorem resize_spec (gridData : Buffer) (width height newWidth newHeight : Nat)
    (originX originY : Int) (hlen : gridData.length = width * height) :
    ((resizeGrid gridData width height newWidth newHeight originX originY).length =
      newWidth * newHeight) ∧
    (∀ dx dy : Nat, dx < newWidth → dy < newHeight →
      (resizeGrid gridData width height newWidth newHeight originX originY).getD
          (dy * newWidth + dx) 0 =
        if 0 ≤ (dy : Int) - originY ∧ (dy : Int) - originY < (height : Int) ∧
            0 ≤ (dx : Int) - originX ∧ (dx : Int) - originX < (width : Int) then
          gridData.getD ((((dy : Int) - originY).toNat) * width +
            ((dx : Int) - originX).toNat) 0
        else CELL_FREE) ∧
    (resizeGrid gridData width height width height 0 0 = gridData) ∧
    (resizeGrid (List.replicate 9 CELL_OCCUPIED) 3 3 5 5 1 1 =
      [0, 0, 0, 0, 0,
       0, 100, 100, 100, 0,
       0, 100, 100, 100, 0,
       0, 100, 100, 100, 0,
       0, 0, 0, 0, 0]) :=
  ⟨resizeGrid_length gridData width height newWidth newHeight originX originY,
   fun dx dy hdx hdy =>
     resizeGrid_getD gridData width height newWidth newHeight originX originY dx dy hdx hdy,
   resizeGrid_identity gridData width height hlen,
   by decide⟩

/-- Witness for C1 on a concrete 2x2 grid resized to 3x1 with offset (1,0). -/
theorem resize_spec_witness :
    ([1, 2, 3, 4] : Buffer).length = 2 * 2 ∧
    (resizeGrid [1, 2, 3, 4] 2 2 3 1 1 0).length = 3 * 1 ∧
    resizeGrid [1, 2, 3, 4] 2 2 2 2 0 0 = [1, 2, 3, 4] :=
  ⟨by decide,
   (resize_spec [1, 2, 3, 4] 2 2 3 1 1 0 (by decide)).1,
   (resize_spec [1, 2, 3, 4] 2 2 2 2 0 0 (by decide)).2.2.1⟩

/-! ### Grid state store and bounded history (src/hooks/useGrid.ts) -/

def MAX_HISTORY : Nat := 20

/-- The useGrid component state: current snapshot (width/height/data/metadata)
together with the history ref and its cursor. -/
structure Store where
  cur : GridState
  hist : List GridState
  idx : Nat
deriving DecidableEq, Repr

/-- saveToHistory: slice up to the cursor, push the new state, evict the oldest
entry past MAX_HISTORY, and move the cursor to the end.  Every caller of
saveToHistory in the source first makes the pushed snapshot the current
component state, so the model also sets cur. -/
def saveToHistory (st : Store) (newState : GridState) : Store :=
  let newHistory := st.hist.take (st.idx + 1) ++ [newState]
  let newHistory2 := if MAX_HISTORY < newHistory.length then newHistory.tail else newHistory
  { cur := newState, hist := newHistory2, idx := newHistory2.length - 1 }

/-- updateGrid: commit new data (and possibly new dimensions); metadata unchanged. -/
def updateGrid (st : Store) (newData : Buffer) (newWidth newHeight : Nat) : Store :=
  saveToHistory st ⟨newWidth, newHeight, newData, st.cur.metadata⟩

/-- undo: move the cursor back one step if possible and restore that snapshot. -/
def undo (st : Store) : Store :=
  if 0 < st.idx then
    { cur := st.hist.getD (st.idx - 1) st.cur, hist := st.hist, idx := st.idx - 1 }
  else st

/-- redo: move the cursor forward one step if possible and restore that snapshot. -/
def redo (st : Store) : Store :=
  if st.idx < st.hist.length - 1 then
    { cur := st.hist.getD (st.idx + 1) st.cur, hist := st.hist, idx := st.idx + 1 }
  else st

/-- clearGrid: commit an all-FREE buffer of the current dimensions. -/
def clearGrid (st : Store) : Store :=
  updateGrid st (List.replicate (st.cur.width * st.cur.height) CELL_FREE)
    st.cur.width st.cur.height

def setStart (st : Store) (x y : ℚ) : Store :=
  saveToHistory st ⟨st.cur.width, st.cur.height, st.cur.data,
    { st.cur.metadata with start := some ⟨x, y⟩ }⟩

def setGoal (st : Store) (x y : ℚ) : Store :=
  saveToHistory st ⟨st.cur.width, st.cur.height, st.cur.data,
    { st.cur.metadata with goal := some ⟨x, y⟩ }⟩

def clearStart (st : Store) : Store :=
  saveToHistory st ⟨st.cur.width, st.cur.height, st.cur.data,
    { st.cur.metadata with start := none }⟩

def clearGoal (st : Store) : Store :=
  saveToHistory st ⟨st.cur.width, st.cur.height, st.cur.data,
    { st.cur.metadata with goal := none }⟩

def updateMetadata (st : Store) (m : GridMetadata) : Store :=
  saveToHistory st ⟨st.cur.width, st.cur.height, st.cur.data, m⟩

/-- The resize operation of the store: resizeGrid then updateGrid. -/
def resizeGridOp (st : Store) (newWidth newHeight : Nat) (originX originY : Int) : Store :=
  updateGrid st
    (resizeGrid st.cur.data st.cur.width st.cur.height newWidth newHeight originX originY)
    newWidth newHeight

/-- A fresh useGrid store: all-FREE buffer and one initial history entry. -/
def initialStore (initialWidth initialHeight : Nat) (initialResolution : ℚ) : Store :=
  let meta : GridMetadata := ⟨initialResolution, ⟨0, 0, 0⟩, none, none⟩
  let g : GridState :=
    ⟨initialWidth, initialHeight, List.replicate (initialWidth * initialHeight) CELL_FREE, meta⟩
  ⟨g, [g], 0⟩

/-- The public mutation operations of the store. -/
inductive Op where
  | commitOp (data : Buffer) (w h : Nat)
  | resizeOp (newW newH : Nat) (ox oy : Int)
  | setStartOp (x y : ℚ)
  | setGoalOp (x y : ℚ)
  | clearStartOp
  | clearGoalOp
  | updateMetaOp (m : GridMetadata)
  | clearOp
  | undoOp
  | redoOp

def applyOp (st : Store) : Op → Store
  | .commitOp d w h => updateGrid st d w h
  | .resizeOp w h ox oy => resizeGridOp st w h ox oy
  | .setStartOp x y => setStart st x y
  | .setGoalOp x y => setGoal st x y
  | .clearStartOp => clearStart st
  | .clearGoalOp => clearGoal st
  | .updateMetaOp m => updateMetadata st m
  | .clearOp => clearGrid st
  | .undoOp => undo st
  | .redoOp => redo st

def runOps (st : Store) (ops : List Op) : Store := ops.foldl applyOp st

/-- A sequence of commits (data, width, height), applied left to right. -/
def commitSeq (st : Store) (cs : List (Buffer × Nat × Nat)) : Store :=
  cs.foldl (fun s c => updateGrid s c.1 c.2.1 c.2.2) st

def undoN : Nat → Store → Store
  | 0, st => st
  | n + 1, st => undoN n (undo st)

def redoN : Nat → Store → Store
  | 0, st => st
  | n + 1, st => redoN n (redo st)

lemma saveToHistory_length_le (st : Store) (s : GridState)
    (h : st.hist.length ≤ MAX_HISTORY) :
    (saveToHistory st s).hist.length ≤ MAX_HISTORY := by
  simp only [saveToHistory]
  have h1 : (st.hist.take (st.idx + 1) ++ [s]).length ≤ st.hist.length + 1 := by
    simp only [List.length_append, List.length_take, List.length_singleton]
    omega
  split
  · rw [List.length_tail]
    omega
  · omega

lemma applyOp_length_le (st : Store) (op : Op)
    (h : st.hist.length ≤ MAX_HISTORY) :
    (applyOp st op).hist.length ≤ MAX_HISTORY := by
  cases op <;>
    simp only [applyOp, updateGrid, resizeGridOp, setStart, setGoal, clearStart,
      clearGoal, updateMetadata, clearGrid, undo, redo] <;>
    first
      | exact saveToHistory_length_le _ _ h
      | (split <;> simpa)

lemma runOps_length_le (ops : List Op) :
    ∀ (st : Store), st.hist.length ≤ MAX_HISTORY →
      (runOps st ops).hist.length ≤ MAX_HISTORY := by
  induction ops with
  | nil => intro st h; exact h
  | cons op t ih =>
      intro st h
      exact ih _ (applyOp_length_le st op h)

lemma saveToHistory_evicts (st : Store) (s : GridState)
    (hlen : st.hist.length = MAX_HISTORY) (hidx : st.idx = MAX_HISTORY - 1) :
    (saveToHistory st s).hist = st.hist.tail ++ [s] := by
  simp only [saveToHistory]
  have htake : st.hist.take (st.idx + 1) = st.hist := by
    apply List.take_of_length_le
    omega
  rw [htake]
  rw [if_pos (by simp only [List.length_append, List.length_singleton]; omega)]
  obtain ⟨a, t, hcons⟩ : ∃ a t, st.hist = a :: t := by
    cases h : st.hist with
    | nil => rw [h] at hlen; simp [MAX_HISTORY] at hlen
    | cons a t => exact ⟨a, t, rfl⟩
  rw [hcons]
  simp

/-- The 25 commits of the concrete history-cap scenario. -/
def commit25 : List Op :=
  (List.range 25).map fun k => Op.commitOp [(k : Int) + 1] 1 1

set_option maxRecDepth 100000 in
/-- C3: the history never exceeds MAX_HISTORY = 20 entries; a push at capacity
with the cursor at the end evicts the oldest entry; and committing 25 times on
a fresh store leaves 20 entries with the cursor at index 19, so exactly the
current state plus 19 undo steps are reachable (the 20th undo is a no-op). -/
theorem history_cap :
    (∀ (st : Store) (ops : List Op), st.hist.length ≤ MAX_HISTORY →
      (runOps st ops).hist.length ≤ MAX_HISTORY) ∧
    (∀ (st : Store) (s : GridState), st.hist.length = MAX_HISTORY →
      st.idx = MAX_HISTORY - 1 → (saveToHistory st s).hist = st.hist.tail ++ [s]) ∧
    ((runOps (initialStore 1 1 1) commit25).hist.length = 20 ∧
      (runOps (initialStore 1 1 1) commit25).idx = 19 ∧
      (undoN 19 (runOps (initialStore 1 1 1) commit25)).idx = 0 ∧
      undoN 20 (runOps (initialStore 1 1 1) commit25) =
        undoN 19 (runOps (initialStore 1 1 1) commit25)) :=
  ⟨fun st ops => runOps_length_le ops st,
   saveToHistory_evicts,
   by decide, by decide, by decide, by decide⟩

set_option maxRecDepth 100000 in
/-- Witness for C3: the capacity bound applied to the fresh 1x1 store and the
25-commit sequence. -/
theorem history_cap_witness :
    (initialStore 1 1 1).hist.length ≤ MAX_HISTORY ∧
    (runOps (initialStore 1 1 1) commit25).hist.length ≤ MAX_HISTORY :=
  ⟨by decide, history_cap.1 (initialStore 1 1 1) commit25 (by decide)⟩

lemma saveToHistory_no_evict (st : Store) (s : GridState)
    (hidx : st.idx < st.hist.length) (hcap : st.idx + 2 ≤ MAX_HISTORY) :
    saveToHistory st s = ⟨s, st.hist.take (st.idx + 1) ++ [s], st.idx + 1⟩ := by
  simp only [saveToHistory]
  have hlen : (st.hist.take (st.idx + 1) ++ [s]).length = st.idx + 2 := by
    simp only [List.length_append, List.length_take, List.length_singleton]
    omega
  rw [if_neg (by omega), hlen]
  simp only [Store.mk.injEq]
  refine ⟨by trivial, by trivial, by omega⟩

lemma commitSeq_cons (st : Store) (c : Buffer × Nat × Nat)
    (cs : List (Buffer × Nat × Nat)) :
    commitSeq st (c :: cs) = commitSeq (updateGrid st c.1 c.2.1 c.2.2) cs := by
  simp only [commitSeq, List.foldl_cons]

lemma commitSeq_at_end (cs : List (Buffer × Nat × Nat)) :
    ∀ (t : Store), t.idx + 1 = t.hist.length →
      t.hist.length + cs.length ≤ MAX_HISTORY →
      t.hist[t.idx]? = some t.cur →
      ∃ pushed : List GridState, pushed.length = cs.length ∧
        commitSeq t cs = ⟨pushed.getLastD t.cur, t.hist ++ pushed, t.idx + cs.length⟩ ∧
        (t.hist ++ pushed)[t.idx + cs.length]? = some (pushed.getLastD t.cur) := by
  induction cs with
  | nil =>
      intro t hAtEnd hcap hcur
      refine ⟨[], rfl, ?_, by simpa using hcur⟩
      show t = _
      simp
  | cons c cs ih =>
      intro t hAtEnd hcap hcur
      have hidx : t.idx < t.hist.length := by omega
      have hcs : (c :: cs).length = cs.length + 1 := rfl
      have htake : t.hist.take (t.idx + 1) = t.hist :=
        List.take_of_length_le (by omega)
      have hnoev : updateGrid t c.1 c.2.1 c.2.2 =
          ⟨⟨c.2.1, c.2.2, c.1, t.cur.metadata⟩,
           t.hist ++ [⟨c.2.1, c.2.2, c.1, t.cur.metadata⟩], t.idx + 1⟩ := by
        rw [updateGrid, saveToHistory_no_evict t _ hidx (by rw [hcs] at hcap; omega), htake]
      set s1 : GridState := ⟨c.2.1, c.2.2, c.1, t.cur.metadata⟩ with hs1
      obtain ⟨pushed, hplen, hEq, hget⟩ := ih (updateGrid t c.1 c.2.1 c.2.2)
        (by rw [hnoev]; simp; omega)
        (by rw [hnoev]; simp only [List.length_append, List.length_singleton]
            rw [hcs] at hcap; omega)
        (by rw [hnoev]
            have : (t.hist ++ [s1])[t.idx + 1]? = some s1 := by
              have h2 := List.getElem?_concat_length t.hist s1
              rwa [← hAtEnd] at h2
            simpa using this)
      refine ⟨s1 :: pushed, by simp [hplen, hcs], ?_, ?_⟩
      · rw [commitSeq_cons, hEq, hnoev]
        simp only [List.getLastD_cons]
        congr 1
        · simp
        · rw [hcs]; omega
      · rw [hnoev] at hget
        simp only at hget
        have hassoc : (t.hist ++ [s1]) ++ pushed = t.hist ++ (s1 :: pushed) := by simp
        rw [hassoc] at hget
        rw [List.getLastD_cons, hcs]
        have : t.idx + (cs.length + 1) = t.idx + 1 + cs.length := by omega
        rw [this]
        exact hget

lemma undoN_char (k : Nat) :
    ∀ (t : Store), k ≤ t.idx → t.idx < t.hist.length → t.hist[t.idx]? = some t.cur →
      (undoN k t).hist = t.hist ∧ (undoN k t).idx = t.idx - k ∧
        t.hist[t.idx - k]? = some (undoN k t).cur := by
  induction k with
  | zero =>
      intro t hk hidx hcur
      exact ⟨rfl, rfl, by simpa using hcur⟩
  | succ k ih =>
      intro t hk hidx hcur
      have hpos : 0 < t.idx := by omega
      have hu : undo t = ⟨t.hist.getD (t.idx - 1) t.cur, t.hist, t.idx - 1⟩ := by
        simp only [undo, if_pos hpos]
      have hcur1 : t.hist[t.idx - 1]? = some (t.hist.getD (t.idx - 1) t.cur) := by
        rw [List.getD_eq_getElem _ _ (by omega), List.getElem?_eq_getElem (by omega)]
      have hh : (undo t).hist = t.hist := by rw [hu]
      have hii : (undo t).idx = t.idx - 1 := by rw [hu]
      have hcc : (undo t).cur = t.hist.getD (t.idx - 1) t.cur := by rw [hu]
      have hstep : undoN (k + 1) t = undoN k (undo t) := rfl
      obtain ⟨h1, h2, h3⟩ := ih (undo t)
        (by rw [hii]; omega)
        (by rw [hii, hh]; omega)
        (by rw [hii, hh, hcc]; exact hcur1)
      refine ⟨?_, ?_, ?_⟩
      · rw [hstep, h1]
        try rw [hh]
      · rw [hstep, h2]
        try rw [hii]
        omega
      · rw [hstep]
        have he : t.idx - (k + 1) = t.idx - 1 - k := by omega
        rw [he]
        try rw [hii] at h3
        try rw [hh] at h3
        exact h3

lemma redoN_char (k : Nat) :
    ∀ (t : Store), t.idx + k < t.hist.length → t.hist[t.idx]? = some t.cur →
      (redoN k t).hist = t.hist ∧ (redoN k t).idx = t.idx + k ∧
        t.hist[t.idx + k]? = some (redoN k t).cur := by
  induction k with
  | zero =>
      intro t hk hcur
      exact ⟨rfl, rfl, by simpa using hcur⟩
  | succ k ih =>
      intro t hk hcur
      have hpos : t.idx < t.hist.length - 1 := by omega
      have hr : redo t = ⟨t.hist.getD (t.idx + 1) t.cur, t.hist, t.idx + 1⟩ := by
        simp only [redo, if_pos hpos]
      have hcur1 : t.hist[t.idx + 1]? = some (t.hist.getD (t.idx + 1) t.cur) := by
        rw [List.getD_eq_getElem _ _ (by omega), List.getElem?_eq_getElem (by omega)]
      have hh : (redo t).hist = t.hist := by rw [hr]
      have hii : (redo t).idx = t.idx + 1 := by rw [hr]
      have hcc : (redo t).cur = t.hist.getD (t.idx + 1) t.cur := by rw [hr]
      have hstep : redoN (k + 1) t = redoN k (redo t) := rfl
      obtain ⟨h1, h2, h3⟩ := ih (redo t)
        (by rw [hii, hh]; omega)
        (by rw [hii, hh, hcc]; exact hcur1)
      refine ⟨?_, ?_, ?_⟩
      · rw [hstep, h1]
        try rw [hh]
      · rw [hstep, h2]
        try rw [hii]
        omega
      · rw [hstep]
        have he : t.idx + (k + 1) = t.idx + 1 + k := by omega
        rw [he]
        try rw [hii] at h3
        try rw [hh] at h3
        exact h3

/-- C2 (amended): provided committing never overflows the 20-entry history
(cursor position + 1 + N ≤ 20), N commits followed by N undos restore the
state before the first commit, and N further redos restore the state after
the N-th commit. -/
theorem undo_redo_symmetry (st : Store) (cs : List (Buffer × Nat × Nat))
    (hidx : st.idx < st.hist.length) (hcur : st.hist[st.idx]? = some st.cur)
    (hcap : st.idx + 1 + cs.length ≤ MAX_HISTORY) :
    (undoN cs.length (commitSeq st cs)).cur = st.cur ∧
    (redoN cs.length (undoN cs.length (commitSeq st cs))).cur =
      (commitSeq st cs).cur := by
  rcases cs with _ | ⟨c, cs⟩
  · simp [commitSeq, undoN, redoN]
  · have hcs : (c :: cs).length = cs.length + 1 := rfl
    have htakelen : (st.hist.take (st.idx + 1)).length = st.idx + 1 := by
      simp only [List.length_take]
      omega
    have hnoev : updateGrid st c.1 c.2.1 c.2.2 =
        ⟨⟨c.2.1, c.2.2, c.1, st.cur.metadata⟩,
         st.hist.take (st.idx + 1) ++ [⟨c.2.1, c.2.2, c.1, st.cur.metadata⟩],
         st.idx + 1⟩ := by
      rw [updateGrid, saveToHistory_no_evict st _ hidx (by rw [hcs] at hcap; omega)]
    set s1 : GridState := ⟨c.2.1, c.2.2, c.1, st.cur.metadata⟩ with hs1
    set hist1 : List GridState := st.hist.take (st.idx + 1) ++ [s1] with hhist1
    have hhist1len : hist1.length = st.idx + 2 := by
      rw [hhist1, List.length_append, List.length_singleton, htakelen]
    have hcur2 : (updateGrid st c.1 c.2.1 c.2.2).cur = s1 := by rw [hnoev]
    have hhist2 : (updateGrid st c.1 c.2.1 c.2.2).hist = hist1 := by rw [hnoev]
    have hidx2 : (updateGrid st c.1 c.2.1 c.2.2).idx = st.idx + 1 := by rw [hnoev]
    obtain ⟨pushed, hplen, hEq, hget⟩ := commitSeq_at_end cs (updateGrid st c.1 c.2.1 c.2.2)
      (by rw [hidx2, hhist2, hhist1len])
      (by rw [hhist2, hhist1len]; rw [hcs] at hcap; omega)
      (by rw [hhist2, hidx2, hcur2, hhist1]
          have h2 := List.getElem?_concat_length (st.hist.take (st.idx + 1)) s1
          rwa [htakelen] at h2)
    rw [hcur2, hhist2, hidx2] at hEq hget
    have hFhist : (commitSeq st (c :: cs)).hist = hist1 ++ pushed := by
      rw [commitSeq_cons, hEq]
    have hFidx : (commitSeq st (c :: cs)).idx = st.idx + 1 + cs.length := by
      rw [commitSeq_cons, hEq]
    have hFcur : (commitSeq st (c :: cs)).cur = pushed.getLastD s1 := by
      rw [commitSeq_cons, hEq]
    have hFlen : (commitSeq st (c :: cs)).hist.length = st.idx + 2 + cs.length := by
      rw [hFhist, List.length_append, hhist1len, hplen]
    have hFwf : (commitSeq st (c :: cs)).hist[(commitSeq st (c :: cs)).idx]? =
        some (commitSeq st (c :: cs)).cur := by
      rw [hFhist, hFidx, hFcur]
      exact hget
    obtain ⟨hU1, hU2, hU3⟩ := undoN_char (c :: cs).length (commitSeq st (c :: cs))
      (by rw [hFidx, hcs]; omega)
      (by rw [hFidx, hFlen]; omega)
      hFwf
    have hUidx : (commitSeq st (c :: cs)).idx - (c :: cs).length = st.idx := by
      rw [hFidx, hcs]; omega
    rw [hUidx] at hU3
    have hist_at_idx : (commitSeq st (c :: cs)).hist[st.idx]? = some st.cur := by
      rw [hFhist]
      rw [List.getElem?_append_left (by rw [hhist1len]; omega)]
      rw [hhist1]
      rw [List.getElem?_append_left (by rw [htakelen]; omega)]
      rw [List.getElem?_take_of_lt (by omega)]
      exact hcur
    have hUcur : (undoN (c :: cs).length (commitSeq st (c :: cs))).cur = st.cur := by
      rw [hU3] at hist_at_idx
      exact Option.some_inj.mp hist_at_idx
    refine ⟨hUcur, ?_⟩
    obtain ⟨hR1, hR2, hR3⟩ := redoN_char (c :: cs).length
      (undoN (c :: cs).length (commitSeq st (c :: cs)))
      (by rw [hU1, hU2, hUidx, hFlen, hcs]; omega)
      (by rw [hU1, hU2, hUidx]; exact hU3)
    rw [hU1, hU2, hUidx] at hR3
    have : st.idx + (c :: cs).length = (commitSeq st (c :: cs)).idx := by
      rw [hFidx, hcs]; omega
    rw [this, hFwf] at hR3
    exact (Option.some_inj.mp hR3).symm

/-- Witness for C2 (amended): one commit then one undo on a fresh store. -/
theorem undo_redo_symmetry_witness :
    (initialStore 1 1 1).idx < (initialStore 1 1 1).hist.length ∧
    ((undoN 1 (commitSeq (initialStore 1 1 1) [([5], 1, 1)])).cur =
      (initialStore 1 1 1).cur ∧
     (redoN 1 (undoN 1 (commitSeq (initialStore 1 1 1) [([5], 1, 1)]))).cur =
      (commitSeq (initialStore 1 1 1) [([5], 1, 1)]).cur) :=
  ⟨by decide,
   undo_redo_symmetry (initialStore 1 1 1) [([5], 1, 1)] (by decide) (by decide) (by decide)⟩

/-- The 20 distinct commits of the C2 counterexample. -/
def commitCex : List (Buffer × Nat × Nat) :=
  (List.range 20).map fun k => ([(k : Int) + 1], 1, 1)

set_option maxRecDepth 100000 in
/-- Counterexample to C2 as stated: on a fresh store, 20 commits followed by
20 undos do NOT restore the state before the first commit, because the 20th
push evicts the pre-commit snapshot from the capped history. -/
theorem undo_redo_symmetry_cex :
    commitCex.length = 20 ∧
    (undoN 20 (commitSeq (initialStore 1 1 1) commitCex)).cur ≠
      (initialStore 1 1 1).cur := by
  exact ⟨by decide, by decide⟩

/-- C10 (amended): the store never clears or clamps start/goal: the resize
operation preserves the current metadata (including start/goal) verbatim, so
the claimed in-bounds invariant is not enforced after a shrinking resize. -/
theorem resize_keeps_metadata (st : Store) (newW newH : Nat) (ox oy : Int) :
    (resizeGridOp st newW newH ox oy).cur.metadata = st.cur.metadata := rfl

/-- The concrete store of the C10 counterexample: a 2x2 grid with start (1,1). -/
def boundsCexStore : Store :=
  ⟨⟨2, 2, [0, 0, 0, 0], ⟨1, ⟨0, 0, 0⟩, some ⟨1, 1⟩, none⟩⟩,
   [⟨2, 2, [0, 0, 0, 0], ⟨1, ⟨0, 0, 0⟩, some ⟨1, 1⟩, none⟩⟩], 0⟩

/-- Counterexample to C10 as stated: shrinking the 2x2 grid with start (1,1)
to 1x1 leaves start = (1,1), which is out of bounds for the new width 1. -/
theorem startgoal_bounds_cex :
    (resizeGridOp boundsCexStore 1 1 0 0).cur.width = 1 ∧
    (resizeGridOp boundsCexStore 1 1 0 0).cur.metadata.start = some ⟨1, 1⟩ ∧
    ¬(((1 : ℚ) < ((resizeGridOp boundsCexStore 1 1 0 0).cur.width : ℚ))) := by
  refine ⟨rfl, rfl, by decide⟩

/-! ### Procedural generators (src/utils/generatorUtils.ts) -/

inductive ShapeType where
  | rect | square | triangle | circle | cross | room
deriving DecidableEq, Repr, Inhabited

inductive GenMode where
  | shapes | maze | bugtrap
deriving DecidableEq, Repr

structure BugtrapOptions where
  width : Int
  length : Int
  thickness : Int
  aperture : Int
  orientation : Int
deriving DecidableEq, Repr

structure GeneratorOptions where
  mode : GenMode
  shapes : List ShapeType
  count : Nat
  minSize : Int
  maxSize : Int
  spacing : Int
  allowOverlap : Bool
  clearFirst : Bool
  bugtrap : BugtrapOptions
deriving Repr

/-- The Point interface of generatorUtils.ts (integer cell coordinates,
possibly off-grid before clipping). -/
structure Point where
  x : Int
  y : Int
deriving DecidableEq, Repr

/-- The inclusive integer range a..b, in order (a for loop from a to b). -/
def intRangeIncl (a b : Int) : List Int :=
  (List.range (b - a + 1).toNat).map fun i : Nat => a + (i : Int)

/-- generateShape of generatorUtils.ts, with the four random draws already
made (center cx,cy and sizes size,size2); JS float arithmetic in the triangle
width is modelled with exact rationals. -/
def generateShape (ty : ShapeType) (cx cy size size2 : Int) : List Point :=
  match ty with
  | .rect | .square =>
      let sw := size
      let sh := if ty = .square then size else size2
      let x0 := cx - sw / 2
      let y0 := cy - sh / 2
      (List.range sh.toNat).flatMap fun y =>
        (List.range sw.toNat).map fun x => ⟨x0 + x, y0 + y⟩
  | .circle =>
      let r := size / 2
      (intRangeIncl (-r) r).flatMap fun y =>
        (intRangeIncl (-r) r).filterMap fun x =>
          if x * x + y * y ≤ r * r then some ⟨cx + x, cy + y⟩ else none
  | .triangle =>
      let hTri := size
      let x0 := cx
      let y0 := cy - hTri / 2
      (List.range hTri.toNat).flatMap fun y =>
        let widthAtY := ⌊((y : ℚ) / (hTri : ℚ)) * (size : ℚ)⌋
        (intRangeIncl (-widthAtY) widthAtY).map fun x => ⟨x0 + x, y0 + y⟩
  | .cross =>
      let thickness := max 1 (size / 3)
      let len := size
      let x0 := cx - len / 2
      let y0 := cy - thickness / 2
      let horiz := (List.range len.toNat).flatMap fun x =>
        (List.range thickness.toNat).map fun y => (⟨x0 + x, y0 + y⟩ : Point)
      let x1 := cx - thickness / 2
      let y1 := cy - len / 2
      let vert := (List.range len.toNat).flatMap fun y =>
        (List.range thickness.toNat).map fun x => (⟨x1 + x, y1 + y⟩ : Point)
      horiz ++ vert
  | .room =>
      let sw := size
      let sh := size2
      let x0 := cx - sw / 2
      let y0 := cy - sh / 2
      (List.range sh.toNat).flatMap fun y =>
        (List.range sw.toNat).filterMap fun x =>
          if x = 0 ∨ (x : Int) = sw - 1 ∨ y = 0 ∨ (y : Int) = sh - 1 then
            some ⟨x0 + x, y0 + y⟩
          else none

/-- The isValid closure of the shapes branch of generateRandomMap: a placement
is valid when overlap is allowed, or when no in-bounds covered cell has an
OCCUPIED cell within a spacing-sized Chebyshev neighbourhood (out-of-bounds
covered cells are skipped). -/
def isValidPlacement (newData : Buffer) (width height : Nat) (spacing : Int)
    (allowOverlap : Bool) (points : List Point) : Bool :=
  if allowOverlap then true
  else points.all fun p =>
    if p.x < 0 ∨ (width : Int) ≤ p.x ∨ p.y < 0 ∨ (height : Int) ≤ p.y then true
    else (intRangeIncl (-spacing) spacing).all fun dy =>
      (intRangeIncl (-spacing) spacing).all fun dx =>
        let nx := p.x + dx
        let ny := p.y + dy
        if 0 ≤ nx ∧ nx < (width : Int) ∧ 0 ≤ ny ∧ ny < (height : Int) then
          if newData.getD ((ny * width + nx).toNat) 0 = CELL_OCCUPIED then false else true
        else true

/-- Stamping an accepted placement: every in-bounds covered cell becomes
OCCUPIED. -/
def stampPoints (newData : Buffer) (width height : Nat) (points : List Point) : Buffer :=
  points.foldl (fun b p =>
    if 0 ≤ p.x ∧ p.x < (width : Int) ∧ 0 ≤ p.y ∧ p.y < (height : Int) then
      b.set ((p.y * (width : Int) + p.x).toNat) CELL_OCCUPIED
    else b) newData

/-- The rejection-sampling loop of the shapes branch of generateRandomMap.
fuel is the remaining attempt budget (count*100 at the start), i the number of
attempts made so far (each attempt consumes five uniform draws: shape pick,
cx, cy, size, size2, modelled through the stream rand), placedCount the number
of accepted placements.  Also returns the list of accepted placements.
The draw model r % n matches floor(random()*n) for n > 0 (callers validate
options, so shapes is nonempty and minSize ≤ maxSize). -/
def shapesLoop (width height : Nat) (opts : GeneratorOptions) (rand : Nat → Nat) :
    Nat → Nat → Nat → Buffer → List (List Point) → Buffer × List (List Point)
  | 0, _, _, newData, acc => (newData, acc)
  | fuel + 1, i, placedCount, newData, acc =>
      if placedCount < opts.count then
        let ty := opts.shapes.getD (rand (5 * i) % opts.shapes.length) .rect
        let cx : Int := (rand (5 * i + 1) % width : Nat)
        let cy : Int := (rand (5 * i + 2) % height : Nat)
        let size := opts.minSize +
          ((rand (5 * i + 3) % (opts.maxSize - opts.minSize + 1).toNat : Nat) : Int)
        let size2 := opts.minSize +
          ((rand (5 * i + 4) % (opts.maxSize - opts.minSize + 1).toNat : Nat) : Int)
        let points := generateShape ty cx cy size size2
        if isValidPlacement newData width height opts.spacing opts.allowOverlap points then
          shapesLoop width height opts rand fuel (i + 1) (placedCount + 1)
            (stampPoints newData width height points) (acc ++ [points])
        else
          shapesLoop width height opts rand fuel (i + 1) placedCount newData acc
      else (newData, acc)

/-- The shapes branch of generateRandomMap, instrumented with the list of
accepted placements. -/
def generateShapesPlacements (currentData : Buffer) (width height : Nat)
    (opts : GeneratorOptions) (rand : Nat → Nat) : Buffer × List (List Point) :=
  let newData := if opts.clearFirst then List.replicate (width * height) CELL_FREE
                 else currentData
  shapesLoop width height opts rand (opts.count * 100) 0 0 newData []

def mazeDirs : List (Int × Int) := [(0, -2), (2, 0), (0, 2), (-2, 0)]

/-- The unvisited in-bounds step-2 neighbours of the current lattice cell
(bounds check leaves a 1-cell border). -/
def mazeNeighbors (width height : Nat) (visited : List Point) (c : Point) :
    List (Point × Int × Int) :=
  mazeDirs.filterMap fun d =>
    let nx := c.x + d.1
    let ny := c.y + d.2
    if 0 < nx ∧ nx < (width : Int) - 1 ∧ 0 < ny ∧ ny < (height : Int) - 1 ∧
        ⟨nx, ny⟩ ∉ visited then
      some (⟨nx, ny⟩, d)
    else none

/-- The while loop of generateMaze (recursive backtracker).  fuel bounds the
number of iterations (each iteration either carves a fresh cell or pops the
stack, so 2*width*height+2 always suffices); randIdx counts the uniform draws
made so far. -/
def mazeLoop (width height : Nat) (rand : Nat → Nat) :
    Nat → Nat → List Point → List Point → Buffer → Buffer
  | 0, _, _, _, maze => maze
  | fuel + 1, randIdx, stack, visited, maze =>
      match stack with
      | [] => maze
      | current :: rest =>
          let neighbors := mazeNeighbors width height visited current
          if 0 < neighbors.length then
            let chosen := neighbors.getD (rand randIdx % neighbors.length) (⟨0, 0⟩, 0, 0)
            let wx := current.x + chosen.2.1 / 2
            let wy := current.y + chosen.2.2 / 2
            let maze1 :=
              if 0 ≤ wx ∧ wx < (width : Int) ∧ 0 ≤ wy ∧ wy < (height : Int) then
                maze.set ((wy * width + wx).toNat) CELL_FREE
              else maze
            let maze2 :=
              if 0 ≤ chosen.1.x ∧ chosen.1.x < (width : Int) ∧
                  0 ≤ chosen.1.y ∧ chosen.1.y < (height : Int) then
                maze1.set ((chosen.1.y * width + chosen.1.x).toNat) CELL_FREE
              else maze1
            mazeLoop width height rand fuel (randIdx + 1)
              (chosen.1 :: current :: rest) (chosen.1 :: visited) maze2
          else
            mazeLoop width height rand fuel randIdx rest visited maze

/-- generateMaze of generatorUtils.ts: all-OCCUPIED buffer, early return when
the start cell (1,1) is outside, else carve with the recursive backtracker. -/
def generateMaze (width height : Nat) (rand : Nat → Nat) : Buffer :=
  let maze := List.replicate (width * height) CELL_OCCUPIED
  let startX : Int := 1
  let startY : Int := 1
  if (width : Int) ≤ startX ∨ (height : Int) ≤ startY then maze
  else
    mazeLoop width height rand (2 * width * height + 2) 0 [⟨startX, startY⟩]
      [⟨startX, startY⟩]
      (maze.set ((startY * width + startX).toNat) CELL_FREE)

/-- generateBugtrap of generatorUtils.ts: draws the three walls of the U-shape
(top, bottom, back with optional aperture) into the buffer it is given,
clipping every write to the grid bounds. -/
def generateBugtrap (currentData : Buffer) (width height : Nat)
    (opts : BugtrapOptions) : Buffer :=
  let cx : Int := (width / 2 : Nat)
  let cy : Int := (height / 2 : Nat)
  let w := opts.width
  let l := opts.length
  let t := opts.thickness
  let x0 := cx - l / 2
  let y0 := cy - w / 2
  let data1 := (List.range t.toNat).foldl (fun b y =>
    (List.range l.toNat).foldl (fun b2 x =>
      let px := x0 + x
      let py := y0 + y
      if 0 ≤ px ∧ px < (width : Int) ∧ 0 ≤ py ∧ py < (height : Int) then
        b2.set ((py * width + px).toNat) CELL_OCCUPIED
      else b2) b) currentData
  let yBot := y0 + w - t
  let data2 := (List.range t.toNat).foldl (fun b y =>
    (List.range l.toNat).foldl (fun b2 x =>
      let px := x0 + x
      let py := yBot + y
      if 0 ≤ px ∧ px < (width : Int) ∧ 0 ≤ py ∧ py < (height : Int) then
        b2.set ((py * width + px).toNat) CELL_OCCUPIED
      else b2) b) data1
  let midY := cy
  let halfAp := opts.aperture / 2
  (List.range t.toNat).foldl (fun b x =>
    (List.range w.toNat).foldl (fun b2 y =>
      let realY := y0 + y
      if 0 < opts.aperture ∧ midY - halfAp ≤ realY ∧
          realY < midY + halfAp + opts.aperture % 2 then b2
      else
        let px := x0 + x
        let py := realY
        if 0 ≤ px ∧ px < (width : Int) ∧ 0 ≤ py ∧ py < (height : Int) then
          b2.set ((py * width + px).toNat) CELL_OCCUPIED
        else b2) b) data2

/-- The caller-visible outcome of a generateRandomMap call: the contents of
the array the caller passed in, as observable after the call, and the
returned buffer. -/
structure GenResult where
  callerBuffer : Buffer
  result : Buffer
deriving DecidableEq, Repr

/-- generateRandomMap of generatorUtils.ts.  The source first binds newData to
a fresh FREE-filled array (clearFirst) or to a fresh copy of currentData
(new Int8Array(currentData)); every subsequent write of every mode targets
that local array or the maze's own fresh array, and no statement writes
through currentData, so the caller's array still holds its original contents
after the call: callerBuffer = currentData. -/
def generateRandomMap (currentData : Buffer) (width height : Nat)
    (options : GeneratorOptions) (rand : Nat → Nat) : GenResult :=
  let newData := if options.clearFirst then List.replicate (width * height) CELL_FREE
                 else currentData
  match options.mode with
  | .maze => ⟨currentData, generateMaze width height rand⟩
  | .bugtrap => ⟨currentData, generateBugtrap newData width height options.bugtrap⟩
  | .shapes =>
      ⟨currentData,
       (shapesLoop width height options rand (options.count * 100) 0 0 newData []).1⟩

/-- C5 (amended): the maze generator returns the all-OCCUPIED buffer unchanged
exactly when the start cell (1,1) is outside the grid, i.e. when either
dimension is smaller than 2 (not 3). -/
theorem maze_too_small (width height : Nat) (rand : Nat → Nat)
    (h : width < 2 ∨ height < 2) :
    generateMaze width height rand = List.replicate (width * height) CELL_OCCUPIED := by
  simp only [generateMaze]
  rw [if_pos (by omega)]

/-- Witness for C5 (amended) on a 1x5 grid. -/
theorem maze_too_small_witness :
    (1 < 2 ∨ 5 < 2) ∧
    generateMaze 1 5 (fun _ => 0) = List.replicate (1 * 5) CELL_OCCUPIED :=
  ⟨Or.inl (by omega), maze_too_small 1 5 (fun _ => 0) (Or.inl (by omega))⟩

/-- Counterexample to C5 as stated: on a 2x2 grid (both dimensions smaller
than 3) the generator still carves the start cell (1,1) FREE, so the result
is not the all-OCCUPIED buffer. -/
theorem maze_degenerate_cex :
    generateMaze 2 2 (fun _ => 0) ≠ List.replicate (2 * 2) CELL_OCCUPIED ∧
    (generateMaze 2 2 (fun _ => 0)).getD (1 * 2 + 1) 0 = CELL_FREE :=
  ⟨by decide, by decide⟩

/-- The generator options of the bugtrap scenario (C9). -/
def bugtrapOpts : GeneratorOptions :=
  ⟨.bugtrap, [], 0, 0, 0, 0, false, false, ⟨3, 3, 1, 0, 0⟩⟩

/-- C9 (amended): in every mode, generateRandomMap leaves the caller's buffer
unchanged; in bugtrap mode without clearFirst the U-shape is written only to
the local copy of the caller's buffer (the result is generateBugtrap applied
to that copy's contents). -/
theorem bugtrap_leaves_caller_unchanged (currentData : Buffer) (width height : Nat)
    (options : GeneratorOptions) (rand : Nat → Nat) :
    (generateRandomMap currentData width height options rand).callerBuffer = currentData ∧
    (options.mode = .bugtrap → options.clearFirst = false →
      (generateRandomMap currentData width height options rand).result =
        generateBugtrap currentData width height options.bugtrap) := by
  constructor
  · cases h : options.mode <;> simp [generateRandomMap, h]
  · intro hm hc
    simp [generateRandomMap, hm, hc]

/-- Witness for C9 (amended): the concrete bugtrap call on a 3x3 all-FREE grid. -/
theorem bugtrap_leaves_caller_unchanged_witness :
    bugtrapOpts.mode = .bugtrap ∧
    (generateRandomMap (List.replicate 9 CELL_FREE) 3 3 bugtrapOpts
        (fun _ => 0)).callerBuffer = List.replicate 9 CELL_FREE ∧
    (generateRandomMap (List.replicate 9 CELL_FREE) 3 3 bugtrapOpts
        (fun _ => 0)).result =
      generateBugtrap (List.replicate 9 CELL_FREE) 3 3 bugtrapOpts.bugtrap :=
  ⟨rfl,
   (bugtrap_leaves_caller_unchanged (List.replicate 9 CELL_FREE) 3 3 bugtrapOpts
      (fun _ => 0)).1,
   (bugtrap_leaves_caller_unchanged (List.replicate 9 CELL_FREE) 3 3 bugtrapOpts
      (fun _ => 0)).2 rfl rfl⟩

/-- Counterexample to C9 as stated: after the bugtrap call the caller's buffer
still holds its original all-FREE contents and does not hold the U-shaped
structure that the returned buffer holds. -/
theorem bugtrap_inplace_cex :
    (generateRandomMap (List.replicate 9 CELL_FREE) 3 3 bugtrapOpts
        (fun _ => 0)).callerBuffer = List.replicate 9 CELL_FREE ∧
    (generateRandomMap (List.replicate 9 CELL_FREE) 3 3 bugtrapOpts
        (fun _ => 0)).callerBuffer ≠
      (generateRandomMap (List.replicate 9 CELL_FREE) 3 3 bugtrapOpts
        (fun _ => 0)).result :=
  ⟨rfl, by decide⟩

/-! ### Shape scatter non-overlap (C7) -/

/-- A covered cell that actually lands on the grid. -/
def inBoundsPt (width height : Nat) (p : Point) : Prop :=
  0 ≤ p.x ∧ p.x < (width : Int) ∧ 0 ≤ p.y ∧ p.y < (height : Int)

instance (width height : Nat) (p : Point) : Decidable (inBoundsPt width height p) := by
  unfold inBoundsPt
  infer_instance

/-- The cells of a placement that were actually stamped: its in-bounds cells. -/
def stampedCells (width height : Nat) (P : List Point) : List Point :=
  P.filter fun p => decide (inBoundsPt width height p)

/-- Two placements have no pair of stamped cells within Chebyshev distance 1
(not even diagonally adjacent, and not equal). -/
def placementsApart (width height : Nat) (P Q : List Point) : Prop :=
  ∀ p ∈ stampedCells width height P, ∀ q ∈ stampedCells width height Q,
    ¬((p.x - q.x).natAbs ≤ 1 ∧ (p.y - q.y).natAbs ≤ 1)

lemma mem_stampedCells {w h : Nat} {P : List Point} {p : Point} :
    p ∈ stampedCells w h P ↔ p ∈ P ∧ inBoundsPt w h p := by
  simp [stampedCells, List.mem_filter]

lemma ptIndex_toNat {width : Nat} {p : Point} (h1 : 0 ≤ p.x) (h3 : 0 ≤ p.y) :
    (p.y * (width : Int) + p.x).toNat = p.y.toNat * width + p.x.toNat := by
  have e : p.y * (width : Int) + p.x =
      ((p.y.toNat * width + p.x.toNat : Nat) : Int) := by
    push_cast
    rw [Int.toNat_of_nonneg h1, Int.toNat_of_nonneg h3]
  rw [e, Int.toNat_natCast]

lemma ptIndex_lt {width height : Nat} {p : Point} (h : inBoundsPt width height p) :
    (p.y * (width : Int) + p.x).toNat < width * height := by
  obtain ⟨h1, h2, h3, h4⟩ := h
  rw [ptIndex_toNat h1 h3]
  exact index_lt_size (by omega) (by omega)

lemma mem_intRangeIncl {a b x : Int} (h1 : a ≤ x) (h2 : x ≤ b) :
    x ∈ intRangeIncl a b := by
  unfold intRangeIncl
  have hmem : (x - a).toNat ∈ List.range (b - a + 1).toNat :=
    List.mem_range.mpr (by omega)
  refine List.mem_map.mpr ⟨(x - a).toNat, hmem, ?_⟩
  show a + ((x - a).toNat : Int) = x
  omega

lemma stampPoints_cons (buf : Buffer) (w h : Nat) (p : Point) (pts : List Point) :
    stampPoints buf w h (p :: pts) =
      stampPoints
        (if 0 ≤ p.x ∧ p.x < (w : Int) ∧ 0 ≤ p.y ∧ p.y < (h : Int) then
          buf.set ((p.y * (w : Int) + p.x).toNat) CELL_OCCUPIED
        else buf) w h pts := rfl

lemma stampPoints_length (w h : Nat) :
    ∀ (pts : List Point) (buf : Buffer), (stampPoints buf w h pts).length = buf.length := by
  intro pts
  induction pts with
  | nil => intro buf; rfl
  | cons p pts ih =>
      intro buf
      rw [stampPoints_cons, ih]
      split <;> simp

lemma set_occ_getD (buf : Buffer) (j k : Nat) (h : buf.getD k 0 = CELL_OCCUPIED) :
    (buf.set j CELL_OCCUPIED).getD k 0 = CELL_OCCUPIED := by
  by_cases hk : j = k
  · subst hk
    by_cases hj : j < buf.length
    · exact getD_set_eq buf j _ hj
    · rw [List.set_eq_of_length_le (by omega)]
      exact h
  · rw [getD_set_ne _ _ _ _ hk]
    exact h

lemma stampPoints_preserves_occ (w h : Nat) :
    ∀ (pts : List Point) (buf : Buffer) (k : Nat),
      buf.getD k 0 = CELL_OCCUPIED →
      (stampPoints buf w h pts).getD k 0 = CELL_OCCUPIED := by
  intro pts
  induction pts with
  | nil => intro buf k hk; exact hk
  | cons p pts ih =>
      intro buf k hk
      rw [stampPoints_cons]
      apply ih
      split
      · exact set_occ_getD _ _ _ hk
      · exact hk

lemma stampPoints_stamps (w h : Nat) :
    ∀ (pts : List Point) (buf : Buffer), buf.length = w * h →
      ∀ p ∈ pts, inBoundsPt w h p →
      (stampPoints buf w h pts).getD ((p.y * (w : Int) + p.x).toNat) 0 =
        CELL_OCCUPIED := by
  intro pts
  induction pts with
  | nil => intro buf _ p hp; exact absurd hp (List.not_mem_nil p)
  | cons q pts ih =>
      intro buf hlen p hp hpb
      rcases List.mem_cons.mp hp with rfl | hp'
      · rw [stampPoints_cons,
          if_pos (show 0 ≤ p.x ∧ p.x < (w : Int) ∧ 0 ≤ p.y ∧ p.y < (h : Int) from hpb)]
        apply stampPoints_preserves_occ
        exact getD_set_eq _ _ _ (by rw [hlen]; exact ptIndex_lt hpb)
      · rw [stampPoints_cons]
        by_cases hq : (0 ≤ q.x ∧ q.x < (w : Int) ∧ 0 ≤ q.y ∧ q.y < (h : Int))
        · rw [if_pos hq]
          exact ih _ (by simp [hlen]) p hp' hpb
        · rw [if_neg hq]
          exact ih _ hlen p hp' hpb

lemma isValid_no_occupied_neighbor (buf : Buffer) (w h : Nat) (pts : List Point)
    (hval : isValidPlacement buf w h 1 false pts = true)
    (p : Point) (hp : p ∈ pts) (hpb : inBoundsPt w h p)
    (dx dy : Int) (hdx : dx.natAbs ≤ 1) (hdy : dy.natAbs ≤ 1)
    (hnb : inBoundsPt w h ⟨p.x + dx, p.y + dy⟩) :
    buf.getD (((p.y + dy) * (w : Int) + (p.x + dx)).toNat) 0 ≠ CELL_OCCUPIED := by
  obtain ⟨hb1, hb2, hb3, hb4⟩ := hpb
  obtain ⟨hn1, hn2, hn3, hn4⟩ := hnb
  try dsimp only at hn1 hn2 hn3 hn4
  unfold isValidPlacement at hval
  rw [if_neg (by simp)] at hval
  rw [List.all_eq_true] at hval
  have h1 := hval p hp
  try dsimp only at h1
  rw [if_neg (by omega)] at h1
  rw [List.all_eq_true] at h1
  have h2 := h1 dy (mem_intRangeIncl (by omega) (by omega))
  try dsimp only at h2
  rw [List.all_eq_true] at h2
  have h3 := h2 dx (mem_intRangeIncl (by omega) (by omega))
  try dsimp only at h3
  rw [if_pos (show 0 ≤ p.x + dx ∧ p.x + dx < (w : Int) ∧ 0 ≤ p.y + dy ∧
      p.y + dy < (h : Int) from ⟨by omega, by omega, by omega, by omega⟩)] at h3
  intro hocc
  rw [if_pos hocc] at h3
  exact absurd h3 (by simp)

lemma placement_index_comm {p q : Point}
    (hadj : (p.x - q.x).natAbs ≤ 1 ∧ (p.y - q.y).natAbs ≤ 1) :
    (q.x - p.x).natAbs ≤ 1 ∧ (q.y - p.y).natAbs ≤ 1 := by
  obtain ⟨h1, h2⟩ := hadj
  omega

lemma shapesLoop_inv (width height : Nat) (opts : GeneratorOptions) (rand : Nat → Nat)
    (hover : opts.allowOverlap = false) (hsp : opts.spacing = 1) :
    ∀ (fuel i placed : Nat) (buf : Buffer) (acc : List (List Point)),
      buf.length = width * height →
      (∀ P ∈ acc, ∀ p ∈ stampedCells width height P,
          buf.getD ((p.y * (width : Int) + p.x).toNat) 0 = CELL_OCCUPIED) →
      List.Pairwise (placementsApart width height) acc →
      ((shapesLoop width height opts rand fuel i placed buf acc).1.length =
          width * height ∧
       (∀ P ∈ (shapesLoop width height opts rand fuel i placed buf acc).2,
          ∀ p ∈ stampedCells width height P,
          (shapesLoop width height opts rand fuel i placed buf acc).1.getD
            ((p.y * (width : Int) + p.x).toNat) 0 = CELL_OCCUPIED) ∧
       List.Pairwise (placementsApart width height)
         (shapesLoop width height opts rand fuel i placed buf acc).2) := by
  intro fuel
  induction fuel with
  | zero =>
      intro i placed buf acc hlen hA hP
      simp only [shapesLoop]
      exact ⟨hlen, hA, hP⟩
  | succ fuel ih =>
      intro i placed buf acc hlen hA hP
      simp only [shapesLoop]
      by_cases hcnt : placed < opts.count
      · rw [if_pos hcnt]
        set pts := generateShape
          (opts.shapes.getD (rand (5 * i) % opts.shapes.length) .rect)
          ((rand (5 * i + 1) % width : Nat) : Int)
          ((rand (5 * i + 2) % height : Nat) : Int)
          (opts.minSize +
            ((rand (5 * i + 3) % (opts.maxSize - opts.minSize + 1).toNat : Nat) : Int))
          (opts.minSize +
            ((rand (5 * i + 4) % (opts.maxSize - opts.minSize + 1).toNat : Nat) : Int))
          with hpts
        by_cases hval :
            isValidPlacement buf width height opts.spacing opts.allowOverlap pts = true
        · rw [if_pos hval]
          apply ih
          · rw [stampPoints_length, hlen]
          · intro P hPmem p hp
            rcases List.mem_append.mp hPmem with hPa | hPs
            · exact stampPoints_preserves_occ width height pts buf _ (hA P hPa p hp)
            · have hPeq : P = pts := by simpa using hPs
              subst hPeq
              obtain ⟨hpmem, hpb⟩ := mem_stampedCells.mp hp
              exact stampPoints_stamps width height pts buf hlen p hpmem hpb
          · rw [List.pairwise_append]
            refine ⟨hP, by simp, ?_⟩
            intro P hPa Q hQs
            have hQeq : Q = pts := by simpa using hQs
            subst hQeq
            intro p hp q hq hadj
            obtain ⟨hqmem, hqb⟩ := mem_stampedCells.mp hq
            obtain ⟨hpmem, hpb⟩ := mem_stampedCells.mp hp
            have hval1 : isValidPlacement buf width height 1 false pts = true := by
              rw [← hover, ← hsp]
              exact hval
            have hnb : inBoundsPt width height
                ⟨q.x + (p.x - q.x), q.y + (p.y - q.y)⟩ := by
              obtain ⟨a1, a2, a3, a4⟩ := hpb
              unfold inBoundsPt
              dsimp only
              omega
            have hno := isValid_no_occupied_neighbor buf width height pts hval1 q
              hqmem hqb (p.x - q.x) (p.y - q.y) hadj.1 hadj.2 hnb
            apply hno
            have e1 : q.x + (p.x - q.x) = p.x := by omega
            have e2 : q.y + (p.y - q.y) = p.y := by omega
            rw [e1, e2]
            exact hA P hPa p hp
        · rw [if_neg hval]
          exact ih i.succ placed buf acc hlen hA hP
      · rw [if_neg hcnt]
        exact ⟨hlen, hA, hP⟩

/-- C7: with allowOverlap=false and spacing=1, the stamped (in-bounds) cells of
every accepted placement are OCCUPIED in the final buffer, and no stamped cell
of one accepted placement is within Chebyshev distance 1 (4- or 8-adjacent,
or equal) of a stamped cell of a different accepted placement. -/
theorem shapes_no_overlap (currentData : Buffer) (width height : Nat)
    (opts : GeneratorOptions) (rand : Nat → Nat)
    (hlen : currentData.length = width * height)
    (hover : opts.allowOverlap = false) (hsp : opts.spacing = 1) :
    (∀ P ∈ (generateShapesPlacements currentData width height opts rand).2,
        ∀ p ∈ stampedCells width height P,
        (generateShapesPlacements currentData width height opts rand).1.getD
          ((p.y * (width : Int) + p.x).toNat) 0 = CELL_OCCUPIED) ∧
    (∀ (i j : Nat) (hi : i < (generateShapesPlacements currentData width height opts rand).2.length)
        (hj : j < (generateShapesPlacements currentData width height opts rand).2.length),
        i ≠ j →
        ∀ p ∈ stampedCells width height
            ((generateShapesPlacements currentData width height opts rand).2.get ⟨i, hi⟩),
        ∀ q ∈ stampedCells width height
            ((generateShapesPlacements currentData width height opts rand).2.get ⟨j, hj⟩),
          ¬((p.x - q.x).natAbs ≤ 1 ∧ (p.y - q.y).natAbs ≤ 1)) := by
  have hinit : (if opts.clearFirst then List.replicate (width * height) CELL_FREE
      else currentData).length = width * height := by
    split <;> simp [hlen]
  obtain ⟨h1, h2, h3⟩ := shapesLoop_inv width height opts rand hover hsp
    (opts.count * 100) 0 0 _ [] hinit (by simp) (by simp)
  constructor
  · intro P hPmem p hp
    exact h2 P hPmem p hp
  · intro i j hi hj hne p hp q hq hadj
    have hpw := List.pairwise_iff_getElem.mp h3
    rcases Nat.lt_or_ge i j with hij | hge
    · exact hpw i j hi hj hij p hp q hq hadj
    · have hji : j < i := by omega
      exact hpw j i hj hi hji q hq p hp (placement_index_comm hadj)

/-- Witness for C7: one 1x1 square placed on a 2x2 all-FREE grid. -/
theorem shapes_no_overlap_witness :
    ([0, 0, 0, 0] : Buffer).length = 2 * 2 ∧
    (∀ P ∈ (generateShapesPlacements [0, 0, 0, 0] 2 2
        ⟨.shapes, [.square], 1, 1, 1, 1, false, true, ⟨0, 0, 0, 0, 0⟩⟩
        (fun _ => 0)).2,
      ∀ p ∈ stampedCells 2 2 P,
      (generateShapesPlacements [0, 0, 0, 0] 2 2
        ⟨.shapes, [.square], 1, 1, 1, 1, false, true, ⟨0, 0, 0, 0, 0⟩⟩
        (fun _ => 0)).1.getD ((p.y * (2 : Int) + p.x).toNat) 0 = CELL_OCCUPIED) :=
  ⟨by decide,
   (shapes_no_overlap [0, 0, 0, 0] 2 2
      ⟨.shapes, [.square], 1, 1, 1, 1, false, true, ⟨0, 0, 0, 0, 0⟩⟩
      (fun _ => 0) (by decide) rfl rfl).1⟩

/-! ### Maze perfection (C6) -/

/-- A cell of the maze buffer that is inside the grid and FREE. -/
def isFreeCell (maze : Buffer) (width height : Nat) (p : Point) : Prop :=
  inBoundsPt width height p ∧
    maze.getD ((p.y * (width : Int) + p.x).toNat) 0 = CELL_FREE

/-- 4-connected reachability from the start lattice cell (1,1) through cells
satisfying F. -/
inductive ReachFree (F : Point → Prop) : Point → Prop where
  | start : ReachFree F ⟨1, 1⟩
  | step {p q : Point} : ReachFree F p → F q →
      (q.x - p.x).natAbs + (q.y - p.y).natAbs = 1 → ReachFree F q

lemma ReachFree.mono {F G : Point → Prop} (h : ∀ p, F p → G p) :
    ∀ {p}, ReachFree F p → ReachFree G p := by
  intro p hr
  induction hr with
  | start => exact .start
  | step hp hF hadj ih => exact .step ih (h _ hF) hadj

/-- Freeness of the grid cell (c.1, c.2), 0-based Nat coordinates. -/
def freePred (maze : Buffer) (width : Nat) (c : Nat × Nat) : Prop :=
  maze.getD (c.2 * width + c.1) 0 = CELL_FREE

instance (maze : Buffer) (width : Nat) (c : Nat × Nat) :
    Decidable (freePred maze width c) := by
  unfold freePred
  infer_instance

def freeCellsFinset (maze : Buffer) (width height : Nat) : Finset (Nat × Nat) :=
  (Finset.range width ×ˢ Finset.range height).filter fun c => freePred maze width c

/-- Number of FREE cells of the buffer. -/
def freeCount (maze : Buffer) (width height : Nat) : Nat :=
  (freeCellsFinset maze width height).card

/-- Horizontal free-free adjacencies, identified by the left cell. -/
def rightEdges (maze : Buffer) (width height : Nat) : Finset (Nat × Nat) :=
  (Finset.range (width - 1) ×ˢ Finset.range height).filter fun c =>
    freePred maze width c ∧ freePred maze width (c.1 + 1, c.2)

/-- Vertical free-free adjacencies, identified by the upper cell. -/
def downEdges (maze : Buffer) (width height : Nat) : Finset (Nat × Nat) :=
  (Finset.range width ×ˢ Finset.range (height - 1)).filter fun c =>
    freePred maze width c ∧ freePred maze width (c.1, c.2 + 1)

/-- Number of 4-adjacent pairs of FREE cells of the buffer. -/
def edgeCount (maze : Buffer) (width height : Nat) : Nat :=
  (rightEdges maze width height).card + (downEdges maze width height).card

lemma rowmajor_inj_nat {w a b c d : Nat} (hb : b < w) (hd : d < w)
    (h : a * w + b = c * w + d) : a = c ∧ b = d := by
  have hint : (a : Int) * w + b = (c : Int) * w + d := by exact_mod_cast h
  have := @rowmajor_inj_int (w : Int) (a : Int) (b : Int) (c : Int) (d : Int)
    (by positivity) (by exact_mod_cast hb)
    (by positivity) (by exact_mod_cast hd) hint
  exact ⟨by exact_mod_cast this.1, by exact_mod_cast this.2⟩

lemma freePred_set {maze : Buffer} {w h : Nat} (hlen : maze.length = w * h)
    (c c' : Nat × Nat) (hc : c.1 < w ∧ c.2 < h) (hc' : c'.1 < w ∧ c'.2 < h) :
    freePred (maze.set (c.2 * w + c.1) CELL_FREE) w c' ↔
      (freePred maze w c' ∨ c' = c) := by
  by_cases he : c' = c
  · subst he
    simp only [freePred]
    rw [getD_set_eq _ _ _ (by rw [hlen]; exact index_lt_size hc.1 hc.2)]
    simp
  · have hidx : c.2 * w + c.1 ≠ c'.2 * w + c'.1 := by
      intro hcon
      obtain ⟨h1, h2⟩ := rowmajor_inj_nat hc.1 hc'.1 hcon
      exact he (Prod.ext h2.symm h1.symm)
    simp only [freePred]
    rw [getD_set_ne _ _ _ _ hidx]
    simp [he]

lemma freeCellsFinset_set {maze : Buffer} {w h : Nat} (hlen : maze.length = w * h)
    (c : Nat × Nat) (hc : c.1 < w ∧ c.2 < h) :
    freeCellsFinset (maze.set (c.2 * w + c.1) CELL_FREE) w h =
      insert c (freeCellsFinset maze w h) := by
  ext c'
  simp only [freeCellsFinset, Finset.mem_insert, Finset.mem_filter,
    Finset.mem_product, Finset.mem_range]
  constructor
  · rintro ⟨⟨m1, m2⟩, hp⟩
    have hp2 := (freePred_set hlen c c' hc ⟨m1, m2⟩).mp hp
    rcases hp2 with hp2 | rfl
    · exact Or.inr ⟨⟨m1, m2⟩, hp2⟩
    · exact Or.inl rfl
  · rintro (rfl | ⟨⟨m1, m2⟩, hp⟩)
    · exact ⟨⟨hc.1, hc.2⟩, (freePred_set hlen _ _ hc hc).mpr (Or.inr rfl)⟩
    · exact ⟨⟨m1, m2⟩, (freePred_set hlen c c' hc ⟨m1, m2⟩).mpr (Or.inl hp)⟩

lemma freeCount_set {maze : Buffer} {w h : Nat} (hlen : maze.length = w * h)
    (c : Nat × Nat) (hc : c.1 < w ∧ c.2 < h) (hnf : ¬ freePred maze w c) :
    freeCount (maze.set (c.2 * w + c.1) CELL_FREE) w h = freeCount maze w h + 1 := by
  unfold freeCount
  rw [freeCellsFinset_set hlen c hc, Finset.card_insert_of_not_mem]
  intro hmem
  exact hnf (Finset.mem_filter.mp hmem).2

lemma mem_rightEdges {maze : Buffer} {w h : Nat} {a : Nat × Nat} :
    a ∈ rightEdges maze w h ↔
      (a.1 < w - 1 ∧ a.2 < h) ∧ freePred maze w a ∧ freePred maze w (a.1 + 1, a.2) := by
  simp only [rightEdges, Finset.mem_filter, Finset.mem_product, Finset.mem_range]

lemma mem_downEdges {maze : Buffer} {w h : Nat} {a : Nat × Nat} :
    a ∈ downEdges maze w h ↔
      (a.1 < w ∧ a.2 < h - 1) ∧ freePred maze w a ∧ freePred maze w (a.1, a.2 + 1) := by
  simp only [downEdges, Finset.mem_filter, Finset.mem_product, Finset.mem_range]

lemma mem_ite_singleton {α : Type} [DecidableEq α] {c : Prop} [Decidable c] {x a : α} :
    (a ∈ (if c then ({x} : Finset α) else ∅)) ↔ (c ∧ a = x) := by
  split
  next hcond => simp [hcond]
  next hcond => simp [hcond]

lemma card_ite_singleton {α : Type} [DecidableEq α] {c : Prop} [Decidable c] {x : α} :
    (if c then ({x} : Finset α) else ∅).card = if c then 1 else 0 := by
  split <;> simp

lemma rightEdges_set {maze : Buffer} {w h : Nat} (hlen : maze.length = w * h)
    (c : Nat × Nat) (hc : c.1 < w ∧ c.2 < h) (hnf : ¬ freePred maze w c) :
    rightEdges (maze.set (c.2 * w + c.1) CELL_FREE) w h =
      ((if c.1 + 1 < w ∧ freePred maze w (c.1 + 1, c.2) then ({c} : Finset (Nat × Nat))
          else ∅) ∪
       (if 0 < c.1 ∧ freePred maze w (c.1 - 1, c.2) then ({(c.1 - 1, c.2)} : Finset (Nat × Nat))
          else ∅)) ∪
      rightEdges maze w h := by
  ext a
  rw [Finset.mem_union, Finset.mem_union, mem_ite_singleton, mem_ite_singleton,
    mem_rightEdges, mem_rightEdges]
  constructor
  · rintro ⟨hb, hpa, hpb⟩
    have hpa2 := (freePred_set hlen c a hc ⟨by omega, hb.2⟩).mp hpa
    have hpb2 := (freePred_set hlen c (a.1 + 1, a.2) hc
      ⟨by dsimp only; omega, by dsimp only; exact hb.2⟩).mp hpb
    rcases hpa2 with hfa | rfl
    · rcases hpb2 with hfb | heq
      · exact Or.inr ⟨hb, hfa, hfb⟩
      · have h1 := congrArg Prod.fst heq
        have h2 := congrArg Prod.snd heq
        dsimp only at h1 h2
        refine Or.inl (Or.inr ⟨⟨by omega, ?_⟩, ?_⟩)
        · have e : ((c.1 - 1 : Nat), c.2) = a := by
            apply Prod.ext <;> dsimp only <;> omega
          rw [e]
          exact hfa
        · apply Prod.ext <;> dsimp only <;> omega
    · rcases hpb2 with hfb | heq
      · exact Or.inl (Or.inl ⟨⟨by omega, hfb⟩, rfl⟩)
      · exfalso
        have h1 := congrArg Prod.fst heq
        dsimp only at h1
        omega
  · rintro ((⟨⟨hcw, hfr⟩, rfl⟩ | ⟨⟨hcp, hfl⟩, rfl⟩) | ⟨hb, hfa, hfb⟩)
    · refine ⟨⟨by omega, hc.2⟩, ?_, ?_⟩
      · exact (freePred_set hlen _ _ hc hc).mpr (Or.inr rfl)
      · exact (freePred_set hlen _ _ hc
          ⟨by dsimp only; omega, by dsimp only; exact hc.2⟩).mpr (Or.inl hfr)
    · refine ⟨⟨by dsimp only; omega, by dsimp only; exact hc.2⟩, ?_, ?_⟩
      · exact (freePred_set hlen _ ((c.1 - 1 : Nat), c.2) hc
          ⟨by dsimp only; omega, by dsimp only; exact hc.2⟩).mpr (Or.inl hfl)
      · exact (freePred_set hlen _ (((c.1 - 1 : Nat), c.2).1 + 1, ((c.1 - 1 : Nat), c.2).2) hc
          ⟨by dsimp only; omega, by dsimp only; exact hc.2⟩).mpr
          (Or.inr (by apply Prod.ext <;> dsimp only <;> omega))
    · refine ⟨hb, ?_, ?_⟩
      · exact (freePred_set hlen c a hc ⟨by omega, hb.2⟩).mpr (Or.inl hfa)
      · exact (freePred_set hlen c (a.1 + 1, a.2) hc
          ⟨by dsimp only; omega, by dsimp only; exact hb.2⟩).mpr (Or.inl hfb)

lemma rightEdges_card_set {maze : Buffer} {w h : Nat} (hlen : maze.length = w * h)
    (c : Nat × Nat) (hc : c.1 < w ∧ c.2 < h) (hnf : ¬ freePred maze w c) :
    (rightEdges (maze.set (c.2 * w + c.1) CELL_FREE) w h).card =
      (rightEdges maze w h).card
      + (if c.1 + 1 < w ∧ freePred maze w (c.1 + 1, c.2) then 1 else 0)
      + (if 0 < c.1 ∧ freePred maze w (c.1 - 1, c.2) then 1 else 0) := by
  rw [rightEdges_set hlen c hc hnf]
  have hdisj2 : Disjoint
      (if c.1 + 1 < w ∧ freePred maze w (c.1 + 1, c.2) then ({c} : Finset (Nat × Nat)) else ∅)
      (if 0 < c.1 ∧ freePred maze w (c.1 - 1, c.2) then ({(c.1 - 1, c.2)} : Finset (Nat × Nat))
        else ∅) := by
    rw [Finset.disjoint_left]
    intro a h1 h2
    rw [mem_ite_singleton] at h1 h2
    obtain ⟨_, rfl⟩ := h1
    obtain ⟨⟨hpos, _⟩, heq⟩ := h2
    have := congrArg Prod.fst heq
    dsimp only at this
    omega
  have hdisj : Disjoint
      ((if c.1 + 1 < w ∧ freePred maze w (c.1 + 1, c.2) then ({c} : Finset (Nat × Nat)) else ∅) ∪
       (if 0 < c.1 ∧ freePred maze w (c.1 - 1, c.2) then ({(c.1 - 1, c.2)} : Finset (Nat × Nat))
         else ∅))
      (rightEdges maze w h) := by
    rw [Finset.disjoint_left]
    intro a ha hold
    rw [Finset.mem_union, mem_ite_singleton, mem_ite_singleton] at ha
    rw [mem_rightEdges] at hold
    rcases ha with ⟨_, rfl⟩ | ⟨⟨hpos, _⟩, rfl⟩
    · exact hnf hold.2.1
    · apply hnf
      have e : ((c.1 - 1, c.2) : Nat × Nat).1 + 1 = c.1 := by dsimp only; omega
      have := hold.2.2
      dsimp only at this
      rw [show c.1 - 1 + 1 = c.1 by omega] at this
      exact this
  rw [Finset.card_union_of_disjoint hdisj, Finset.card_union_of_disjoint hdisj2,
    card_ite_singleton, card_ite_singleton]
  omega

lemma downEdges_set {maze : Buffer} {w h : Nat} (hlen : maze.length = w * h)
    (c : Nat × Nat) (hc : c.1 < w ∧ c.2 < h) (hnf : ¬ freePred maze w c) :
    downEdges (maze.set (c.2 * w + c.1) CELL_FREE) w h =
      ((if c.2 + 1 < h ∧ freePred maze w (c.1, c.2 + 1) then ({c} : Finset (Nat × Nat))
          else ∅) ∪
       (if 0 < c.2 ∧ freePred maze w (c.1, c.2 - 1) then ({(c.1, c.2 - 1)} : Finset (Nat × Nat))
          else ∅)) ∪
      downEdges maze w h := by
  ext a
  rw [Finset.mem_union, Finset.mem_union, mem_ite_singleton, mem_ite_singleton,
    mem_downEdges, mem_downEdges]
  constructor
  · rintro ⟨hb, hpa, hpb⟩
    have hpa2 := (freePred_set hlen c a hc ⟨hb.1, by omega⟩).mp hpa
    have hpb2 := (freePred_set hlen c (a.1, a.2 + 1) hc
      ⟨by dsimp only; exact hb.1, by dsimp only; omega⟩).mp hpb
    rcases hpa2 with hfa | rfl
    · rcases hpb2 with hfb | heq
      · exact Or.inr ⟨hb, hfa, hfb⟩
      · have h1 := congrArg Prod.fst heq
        have h2 := congrArg Prod.snd heq
        dsimp only at h1 h2
        refine Or.inl (Or.inr ⟨⟨by omega, ?_⟩, ?_⟩)
        · have e : ((c.1 : Nat), c.2 - 1) = a := by
            apply Prod.ext <;> dsimp only <;> omega
          rw [e]
          exact hfa
        · apply Prod.ext <;> dsimp only <;> omega
    · rcases hpb2 with hfb | heq
      · exact Or.inl (Or.inl ⟨⟨by omega, hfb⟩, rfl⟩)
      · exfalso
        have h1 := congrArg Prod.snd heq
        dsimp only at h1
        omega
  · rintro ((⟨⟨hch, hfd⟩, rfl⟩ | ⟨⟨hcp, hfu⟩, rfl⟩) | ⟨hb, hfa, hfb⟩)
    · refine ⟨⟨hc.1, by omega⟩, ?_, ?_⟩
      · exact (freePred_set hlen _ _ hc hc).mpr (Or.inr rfl)
      · exact (freePred_set hlen _ _ hc
          ⟨by dsimp only; exact hc.1, by dsimp only; omega⟩).mpr (Or.inl hfd)
    · refine ⟨⟨by dsimp only; exact hc.1, by dsimp only; omega⟩, ?_, ?_⟩
      · exact (freePred_set hlen _ ((c.1 : Nat), c.2 - 1) hc
          ⟨by dsimp only; exact hc.1, by dsimp only; omega⟩).mpr (Or.inl hfu)
      · exact (freePred_set hlen _ (((c.1 : Nat), c.2 - 1).1, ((c.1 : Nat), c.2 - 1).2 + 1) hc
          ⟨by dsimp only; exact hc.1, by dsimp only; omega⟩).mpr
          (Or.inr (by apply Prod.ext <;> dsimp only <;> omega))
    · refine ⟨hb, ?_, ?_⟩
      · exact (freePred_set hlen c a hc ⟨hb.1, by omega⟩).mpr (Or.inl hfa)
      · exact (freePred_set hlen c (a.1, a.2 + 1) hc
          ⟨by dsimp only; exact hb.1, by dsimp only; omega⟩).mpr (Or.inl hfb)

lemma downEdges_card_set {maze : Buffer} {w h : Nat} (hlen : maze.length = w * h)
    (c : Nat × Nat) (hc : c.1 < w ∧ c.2 < h) (hnf : ¬ freePred maze w c) :
    (downEdges (maze.set (c.2 * w + c.1) CELL_FREE) w h).card =
      (downEdges maze w h).card
      + (if c.2 + 1 < h ∧ freePred maze w (c.1, c.2 + 1) then 1 else 0)
      + (if 0 < c.2 ∧ freePred maze w (c.1, c.2 - 1) then 1 else 0) := by
  rw [downEdges_set hlen c hc hnf]
  have hdisj2 : Disjoint
      (if c.2 + 1 < h ∧ freePred maze w (c.1, c.2 + 1) then ({c} : Finset (Nat × Nat)) else ∅)
      (if 0 < c.2 ∧ freePred maze w (c.1, c.2 - 1) then ({(c.1, c.2 - 1)} : Finset (Nat × Nat))
        else ∅) := by
    rw [Finset.disjoint_left]
    intro a h1 h2
    rw [mem_ite_singleton] at h1 h2
    obtain ⟨_, rfl⟩ := h1
    obtain ⟨⟨hpos, _⟩, heq⟩ := h2
    have := congrArg Prod.snd heq
    dsimp only at this
    omega
  have hdisj : Disjoint
      ((if c.2 + 1 < h ∧ freePred maze w (c.1, c.2 + 1) then ({c} : Finset (Nat × Nat)) else ∅) ∪
       (if 0 < c.2 ∧ freePred maze w (c.1, c.2 - 1) then ({(c.1, c.2 - 1)} : Finset (Nat × Nat))
         else ∅))
      (downEdges maze w h) := by
    rw [Finset.disjoint_left]
    intro a ha hold
    rw [Finset.mem_union, mem_ite_singleton, mem_ite_singleton] at ha
    rw [mem_downEdges] at hold
    rcases ha with ⟨_, rfl⟩ | ⟨⟨hpos, _⟩, rfl⟩
    · exact hnf hold.2.1
    · apply hnf
      have := hold.2.2
      dsimp only at this
      rw [show c.2 - 1 + 1 = c.2 by omega] at this
      exact this
  rw [Finset.card_union_of_disjoint hdisj, Finset.card_union_of_disjoint hdisj2,
    card_ite_singleton, card_ite_singleton]
  omega

/-- The change of the free adjacency count when one non-FREE in-bounds cell is
carved FREE: one new edge per already-FREE 4-neighbour. -/
lemma edgeCount_set {maze : Buffer} {w h : Nat} (hlen : maze.length = w * h)
    (c : Nat × Nat) (hc : c.1 < w ∧ c.2 < h) (hnf : ¬ freePred maze w c) :
    edgeCount (maze.set (c.2 * w + c.1) CELL_FREE) w h =
      edgeCount maze w h
      + (if c.1 + 1 < w ∧ freePred maze w (c.1 + 1, c.2) then 1 else 0)
      + (if 0 < c.1 ∧ freePred maze w (c.1 - 1, c.2) then 1 else 0)
      + (if c.2 + 1 < h ∧ freePred maze w (c.1, c.2 + 1) then 1 else 0)
      + (if 0 < c.2 ∧ freePred maze w (c.1, c.2 - 1) then 1 else 0) := by
  unfold edgeCount
  rw [rightEdges_card_set hlen c hc hnf, downEdges_card_set hlen c hc hnf]
  omega

lemma intIndex_toNat {w : Nat} {x y : Int} (hx : 0 ≤ x) (hy : 0 ≤ y) :
    (y * (w : Int) + x).toNat = y.toNat * w + x.toNat := by
  have e : y * (w : Int) + x = ((y.toNat * w + x.toNat : Nat) : Int) := by
    push_cast
    rw [Int.toNat_of_nonneg hx, Int.toNat_of_nonneg hy]
  rw [e, Int.toNat_natCast]

lemma point_mk_eq {a b c d : Int} : (⟨a, b⟩ : Point) = ⟨c, d⟩ ↔ a = c ∧ b = d := by
  constructor
  · intro hcon
    exact ⟨congrArg Point.x hcon, congrArg Point.y hcon⟩
  · rintro ⟨rfl, rfl⟩
    rfl

lemma isFreeCell_mk {maze : Buffer} {w h : Nat} {x y : Int} :
    isFreeCell maze w h ⟨x, y⟩ ↔
      ((0 ≤ x ∧ x < (w : Int) ∧ 0 ≤ y ∧ y < (h : Int)) ∧
        maze.getD ((y * (w : Int) + x).toNat) 0 = CELL_FREE) := Iff.rfl

lemma isFreeCell_set_mk {maze : Buffer} {w h : Nat} (hlen : maze.length = w * h)
    (qx qy px py : Int) (hq : 0 ≤ qx ∧ qx < (w : Int) ∧ 0 ≤ qy ∧ qy < (h : Int)) :
    isFreeCell (maze.set ((qy * (w : Int) + qx).toNat) CELL_FREE) w h ⟨px, py⟩ ↔
      (isFreeCell maze w h ⟨px, py⟩ ∨ (px = qx ∧ py = qy)) := by
  rw [isFreeCell_mk, isFreeCell_mk]
  have hidx : (qy * (w : Int) + qx).toNat < w * h := by
    rw [intIndex_toNat hq.1 hq.2.2.1]
    exact index_lt_size (by omega) (by omega)
  constructor
  · rintro ⟨hb, hf⟩
    by_cases hpq : px = qx ∧ py = qy
    · exact Or.inr hpq
    · refine Or.inl ⟨hb, ?_⟩
      rw [getD_set_ne _ _ _ _ ?_] at hf
      · exact hf
      · rw [intIndex_toNat hq.1 hq.2.2.1, intIndex_toNat hb.1 hb.2.2.1]
        intro hcon
        obtain ⟨e1, e2⟩ := rowmajor_inj_nat (by omega) (by omega) hcon
        exact hpq ⟨by omega, by omega⟩
  · rintro (⟨hb, hf⟩ | ⟨hq1, hq2⟩)
    · refine ⟨hb, ?_⟩
      by_cases hpq : px = qx ∧ py = qy
      · obtain ⟨e1, e2⟩ := hpq
        rw [e1, e2]
        exact getD_set_eq _ _ _ (by rw [hlen]; exact hidx)
      · rw [getD_set_ne _ _ _ _ ?_]
        · exact hf
        · rw [intIndex_toNat hq.1 hq.2.2.1, intIndex_toNat hb.1 hb.2.2.1]
          intro hcon
          obtain ⟨e1, e2⟩ := rowmajor_inj_nat (by omega) (by omega) hcon
          exact hpq ⟨by omega, by omega⟩
    · rw [hq1, hq2]
      exact ⟨hq, getD_set_eq _ _ _ (by rw [hlen]; exact hidx)⟩

lemma freePred_iff_isFree_mk {maze : Buffer} {w h : Nat} (a b : Nat)
    (ha : a < w) (hb : b < h) :
    freePred maze w (a, b) ↔ isFreeCell maze w h ⟨(a : Int), (b : Int)⟩ := by
  rw [isFreeCell_mk]
  unfold freePred
  rw [intIndex_toNat (by positivity) (by positivity), Int.toNat_natCast, Int.toNat_natCast]
  constructor
  · intro hf
    exact ⟨⟨by positivity, by exact_mod_cast ha, by positivity, by exact_mod_cast hb⟩, hf⟩
  · rintro ⟨_, hf⟩
    exact hf

lemma freePred_replicate_false {w h : Nat} (c : Nat × Nat) (hc1 : c.1 < w) (hc2 : c.2 < h) :
    ¬ freePred (List.replicate (w * h) CELL_OCCUPIED) w c := by
  unfold freePred
  rw [List.getD_eq_getElem _ _ (by simpa using index_lt_size hc1 hc2)]
  simp [CELL_OCCUPIED, CELL_FREE]

lemma freeCount_replicate {w h : Nat} :
    freeCount (List.replicate (w * h) CELL_OCCUPIED) w h = 0 := by
  unfold freeCount
  rw [Finset.card_eq_zero, Finset.eq_empty_iff_forall_not_mem]
  intro c hc
  rw [freeCellsFinset, Finset.mem_filter, Finset.mem_product, Finset.mem_range,
    Finset.mem_range] at hc
  exact freePred_replicate_false c hc.1.1 hc.1.2 hc.2

lemma edgeCount_replicate {w h : Nat} :
    edgeCount (List.replicate (w * h) CELL_OCCUPIED) w h = 0 := by
  unfold edgeCount
  have h1 : rightEdges (List.replicate (w * h) CELL_OCCUPIED) w h = ∅ := by
    rw [Finset.eq_empty_iff_forall_not_mem]
    intro c hc
    rw [mem_rightEdges] at hc
    exact freePred_replicate_false c (by omega) hc.1.2 hc.2.1
  have h2 : downEdges (List.replicate (w * h) CELL_OCCUPIED) w h = ∅ := by
    rw [Finset.eq_empty_iff_forall_not_mem]
    intro c hc
    rw [mem_downEdges] at hc
    exact freePred_replicate_false c hc.1.1 (by omega) hc.2.1
  rw [h1, h2]
  rfl

/-- The loop invariant of the recursive backtracker: the free cells are the
visited interior lattice cells (both coordinates odd) together with carved
midpoint cells (exactly one odd coordinate) whose two lattice endpoints are
visited; all free cells are reachable from (1,1) through free cells; and the
free/adjacency counts are those of a tree that grows by a corridor of two
cells per carve. -/
structure MazeInv (width height : Nat) (stack visited : List Point)
    (maze : Buffer) : Prop where
  hlen : maze.length = width * height
  vals : ∀ k, maze.getD k 0 = CELL_FREE ∨ maze.getD k 0 = CELL_OCCUPIED
  stack_sub : ∀ p ∈ stack, p ∈ visited
  visited_iff : ∀ p, p ∈ visited ↔
    (isFreeCell maze width height p ∧ p.x % 2 = 1 ∧ p.y % 2 = 1)
  interior : ∀ p, isFreeCell maze width height p →
    1 ≤ p.x ∧ p.x ≤ (width : Int) - 2 ∧ 1 ≤ p.y ∧ p.y ≤ (height : Int) - 2
  parity : ∀ p, isFreeCell maze width height p → ¬(p.x % 2 = 0 ∧ p.y % 2 = 0)
  mid_horiz : ∀ p, isFreeCell maze width height p → p.x % 2 = 0 →
    Point.mk (p.x - 1) p.y ∈ visited ∧ Point.mk (p.x + 1) p.y ∈ visited
  mid_vert : ∀ p, isFreeCell maze width height p → p.y % 2 = 0 →
    Point.mk p.x (p.y - 1) ∈ visited ∧ Point.mk p.x (p.y + 1) ∈ visited
  reach : ∀ p, isFreeCell maze width height p →
    ReachFree (isFreeCell maze width height) p
  counts : freeCount maze width height = 2 * visited.length - 1 ∧
    edgeCount maze width height = 2 * (visited.length - 1)
  start_mem : Point.mk 1 1 ∈ visited

lemma isFree_init {width height : Nat} (hw : 3 ≤ width) (hh : 3 ≤ height) (p : Point) :
    isFreeCell ((List.replicate (width * height) CELL_OCCUPIED).set
        (1 * width + 1) CELL_FREE) width height p ↔ p = ⟨1, 1⟩ := by
  have hidx : 1 * width + 1 < width * height :=
    @index_lt_size width height 1 1 (by omega) (by omega)
  have hlen2 : (List.replicate (width * height) CELL_OCCUPIED).length = width * height := by
    simp
  constructor
  · rintro ⟨⟨hb1, hb2, hb3, hb4⟩, hf⟩
    have hb : inBoundsPt width height p := ⟨hb1, hb2, hb3, hb4⟩
    by_cases hpq : p = ⟨1, 1⟩
    · exact hpq
    · exfalso
      have hne : 1 * width + 1 ≠ (p.y * (width : Int) + p.x).toNat := by
        rw [intIndex_toNat hb1 hb3]
        intro hcon
        obtain ⟨e1, e2⟩ := rowmajor_inj_nat (by omega) (by omega) hcon.symm
        apply hpq
        have hx : p.x = 1 := by omega
        have hy : p.y = 1 := by omega
        cases p
        rw [point_mk_eq]
        exact ⟨hx, hy⟩
      rw [getD_set_ne _ _ _ _ hne] at hf
      rw [List.getD_eq_getElem _ _ (by simpa using ptIndex_lt hb)] at hf
      simp [CELL_OCCUPIED, CELL_FREE] at hf
  · rintro rfl
    refine ⟨?_, ?_⟩
    · unfold inBoundsPt
      dsimp only
      omega
    · show (_ : Buffer).getD ((((1 : Int)) * (width : Int) + 1).toNat) 0 = CELL_FREE
      have e : (((1 : Int)) * (width : Int) + 1).toNat = 1 * width + 1 := by
        rw [intIndex_toNat (by omega) (by omega)]
        simp
      rw [e]
      exact getD_set_eq _ _ _ (by rw [hlen2]; exact hidx)

lemma mazeInv_init (width height : Nat) (hw : 3 ≤ width) (hh : 3 ≤ height) :
    MazeInv width height [⟨1, 1⟩] [⟨1, 1⟩]
      ((List.replicate (width * height) CELL_OCCUPIED).set (1 * width + 1) CELL_FREE) := by
  have hlen2 : (List.replicate (width * height) CELL_OCCUPIED).length = width * height := by
    simp
  have hfree := isFree_init hw hh
  refine ⟨?_, ?_, ?_, ?_, ?_, ?_, ?_, ?_, ?_, ?_, ?_⟩
  · simp
  · intro k
    by_cases hk : k = 1 * width + 1
    · subst hk
      left
      exact getD_set_eq _ _ _
        (by rw [hlen2]; exact @index_lt_size width height 1 1 (by omega) (by omega))
    · rw [getD_set_ne _ _ _ _ (by omega)]
      by_cases hk2 : k < width * height
      · right
        rw [List.getD_eq_getElem _ _ (by simpa using hk2)]
        simp
      · left
        rw [List.getD_eq_getElem?_getD, List.getElem?_eq_none (by simpa using hk2)]
        rfl
  · intro p hp
    exact hp
  · intro p
    rw [hfree p]
    constructor
    · intro hp
      have : p = ⟨1, 1⟩ := by simpa using hp
      subst this
      exact ⟨rfl, by decide, by decide⟩
    · rintro ⟨rfl, _, _⟩
      simp
  · intro p hp
    rw [hfree p] at hp
    subst hp
    refine ⟨by show (1 : Int) ≤ 1; decide,
      by show (1 : Int) ≤ (width : Int) - 2; omega,
      by show (1 : Int) ≤ 1; decide,
      by show (1 : Int) ≤ (height : Int) - 2; omega⟩
  · intro p hp
    rw [hfree p] at hp
    subst hp
    exact by decide
  · intro p hp hx
    rw [hfree p] at hp
    subst hp
    exact absurd hx (by decide)
  · intro p hp hy
    rw [hfree p] at hp
    subst hp
    exact absurd hy (by decide)
  · intro p hp
    rw [hfree p] at hp
    subst hp
    exact .start
  · have hb11 : ((1, 1) : Nat × Nat).1 < width ∧ ((1, 1) : Nat × Nat).2 < height := by
      refine ⟨?_, ?_⟩ <;> show 1 < _ <;> omega
    have hnf11 : ¬ freePred (List.replicate (width * height) CELL_OCCUPIED) width (1, 1) :=
      freePred_replicate_false (1, 1) (by show 1 < _; omega) (by show 1 < _; omega)
    have hre : (List.replicate (width * height) CELL_OCCUPIED).set (1 * width + 1) CELL_FREE =
        (List.replicate (width * height) CELL_OCCUPIED).set
          (((1, 1) : Nat × Nat).2 * width + ((1, 1) : Nat × Nat).1) CELL_FREE := rfl
    constructor
    · rw [hre, freeCount_set hlen2 (1, 1) hb11 hnf11, freeCount_replicate]
      simp
    · rw [hre, edgeCount_set hlen2 (1, 1) hb11 hnf11, edgeCount_replicate]
      dsimp only
      have i1 : ¬(1 + 1 < width ∧ freePred (List.replicate (width * height) CELL_OCCUPIED)
          width (1 + 1, 1)) := by
        rintro ⟨hlt, hf⟩
        exact freePred_replicate_false (1 + 1, 1) (by show 1 + 1 < width; omega)
          (by show 1 < height; omega) hf
      have i2 : ¬((0 : Nat) < 1 ∧ freePred (List.replicate (width * height) CELL_OCCUPIED)
          width (1 - 1, 1)) := by
        rintro ⟨_, hf⟩
        exact freePred_replicate_false (1 - 1, 1) (by show 1 - 1 < width; omega)
          (by show 1 < height; omega) hf
      have i3 : ¬(1 + 1 < height ∧ freePred (List.replicate (width * height) CELL_OCCUPIED)
          width (1, 1 + 1)) := by
        rintro ⟨hlt, hf⟩
        exact freePred_replicate_false (1, 1 + 1) (by show 1 < width; omega)
          (by show 1 + 1 < height; omega) hf
      have i4 : ¬((0 : Nat) < 1 ∧ freePred (List.replicate (width * height) CELL_OCCUPIED)
          width (1, 1 - 1)) := by
        rintro ⟨_, hf⟩
        exact freePred_replicate_false (1, 1 - 1) (by show 1 < width; omega)
          (by show 1 - 1 < height; omega) hf
      rw [if_neg i1, if_neg i2, if_neg i3, if_neg i4]
      simp
  · rw [List.mem_singleton]

lemma getD_mem {l : List (Point × Int × Int)} {i : Nat} (hne : 0 < l.length)
    (v : Point × Int × Int) : l.getD (i % l.length) v ∈ l := by
  rw [List.getD_eq_getElem _ _ (Nat.mod_lt i hne)]
  exact List.getElem_mem _

/-- When the in-bounds cell (mx,my) has exactly one FREE 4-neighbour (cx,cy),
the four adjacency indicators of the edge-count flip lemma sum to one. -/
lemma edge_indicators_one {maze : Buffer} {w h : Nat}
    {mx my cx cy : Int}
    (hmb : 0 ≤ mx ∧ mx < (w : Int) ∧ 0 ≤ my ∧ my < (h : Int))
    (hcb : 0 ≤ cx ∧ cx < (w : Int) ∧ 0 ≤ cy ∧ cy < (h : Int))
    (hadj : (cx - mx).natAbs + (cy - my).natAbs = 1)
    (hcfree : isFreeCell maze w h ⟨cx, cy⟩)
    (huniq : ∀ x y : Int, isFreeCell maze w h ⟨x, y⟩ →
      (x - mx).natAbs + (y - my).natAbs = 1 → x = cx ∧ y = cy) :
    (if (mx.toNat, my.toNat).1 + 1 < w ∧
        freePred maze w ((mx.toNat, my.toNat).1 + 1, (mx.toNat, my.toNat).2) then 1 else 0)
    + (if 0 < (mx.toNat, my.toNat).1 ∧
        freePred maze w ((mx.toNat, my.toNat).1 - 1, (mx.toNat, my.toNat).2) then 1 else 0)
    + (if (mx.toNat, my.toNat).2 + 1 < h ∧
        freePred maze w ((mx.toNat, my.toNat).1, (mx.toNat, my.toNat).2 + 1) then 1 else 0)
    + (if 0 < (mx.toNat, my.toNat).2 ∧
        freePred maze w ((mx.toNat, my.toNat).1, (mx.toNat, my.toNat).2 - 1) then 1 else 0)
    = 1 := by
  dsimp only
  have mkBridgeR : mx.toNat + 1 < w → (freePred maze w (mx.toNat + 1, my.toNat) ↔
      isFreeCell maze w h ⟨mx + 1, my⟩) := by
    intro hbd
    rw [@freePred_iff_isFree_mk maze w h (mx.toNat + 1) my.toNat (by omega) (by omega)]
    have e : (⟨((mx.toNat + 1 : Nat) : Int), ((my.toNat : Nat) : Int)⟩ : Point) =
        ⟨mx + 1, my⟩ := by
      rw [point_mk_eq]
      omega
    rw [e]
  have mkBridgeD : my.toNat + 1 < h → (freePred maze w (mx.toNat, my.toNat + 1) ↔
      isFreeCell maze w h ⟨mx, my + 1⟩) := by
    intro hbd
    rw [@freePred_iff_isFree_mk maze w h mx.toNat (my.toNat + 1) (by omega) (by omega)]
    have e : (⟨((mx.toNat : Nat) : Int), ((my.toNat + 1 : Nat) : Int)⟩ : Point) =
        ⟨mx, my + 1⟩ := by
      rw [point_mk_eq]
      omega
    rw [e]
  have hiR : (if mx.toNat + 1 < w ∧ freePred maze w (mx.toNat + 1, my.toNat) then 1 else 0) =
      if cx = mx + 1 ∧ cy = my then 1 else 0 := by
    by_cases hcur : cx = mx + 1 ∧ cy = my
    · rw [if_pos hcur, if_pos ⟨by omega, (mkBridgeR (by omega)).mpr (by
        have e : (⟨mx + 1, my⟩ : Point) = ⟨cx, cy⟩ := by rw [point_mk_eq]; omega
        rw [e]; exact hcfree)⟩]
    · rw [if_neg hcur, if_neg ?_]
      rintro ⟨hbd, hf⟩
      obtain ⟨e1, e2⟩ := huniq (mx + 1) my ((mkBridgeR hbd).mp hf) (by omega)
      exact hcur ⟨e1.symm, e2.symm⟩
  have hiL : (if 0 < mx.toNat ∧ freePred maze w (mx.toNat - 1, my.toNat) then 1 else 0) =
      if cx = mx - 1 ∧ cy = my then 1 else 0 := by
    by_cases hcur : cx = mx - 1 ∧ cy = my
    · have hpos : 0 < mx.toNat := by omega
      have bridgeL : freePred maze w (mx.toNat - 1, my.toNat) ↔
          isFreeCell maze w h ⟨mx - 1, my⟩ := by
        rw [@freePred_iff_isFree_mk maze w h (mx.toNat - 1) my.toNat (by omega) (by omega)]
        have e : (⟨((mx.toNat - 1 : Nat) : Int), ((my.toNat : Nat) : Int)⟩ : Point) =
            ⟨mx - 1, my⟩ := by
          rw [point_mk_eq]
          omega
        rw [e]
      rw [if_pos hcur, if_pos ⟨hpos, bridgeL.mpr (by
        have e : (⟨mx - 1, my⟩ : Point) = ⟨cx, cy⟩ := by rw [point_mk_eq]; omega
        rw [e]; exact hcfree)⟩]
    · rw [if_neg hcur, if_neg ?_]
      rintro ⟨hbd, hf⟩
      have bridgeL : freePred maze w (mx.toNat - 1, my.toNat) ↔
          isFreeCell maze w h ⟨mx - 1, my⟩ := by
        rw [@freePred_iff_isFree_mk maze w h (mx.toNat - 1) my.toNat (by omega) (by omega)]
        have e : (⟨((mx.toNat - 1 : Nat) : Int), ((my.toNat : Nat) : Int)⟩ : Point) =
            ⟨mx - 1, my⟩ := by
          rw [point_mk_eq]
          omega
        rw [e]
      obtain ⟨e1, e2⟩ := huniq (mx - 1) my (bridgeL.mp hf) (by omega)
      exact hcur ⟨e1.symm, e2.symm⟩
  have hiD : (if my.toNat + 1 < h ∧ freePred maze w (mx.toNat, my.toNat + 1) then 1 else 0) =
      if cx = mx ∧ cy = my + 1 then 1 else 0 := by
    by_cases hcur : cx = mx ∧ cy = my + 1
    · rw [if_pos hcur, if_pos ⟨by omega, (mkBridgeD (by omega)).mpr (by
        have e : (⟨mx, my + 1⟩ : Point) = ⟨cx, cy⟩ := by rw [point_mk_eq]; omega
        rw [e]; exact hcfree)⟩]
    · rw [if_neg hcur, if_neg ?_]
      rintro ⟨hbd, hf⟩
      obtain ⟨e1, e2⟩ := huniq mx (my + 1) ((mkBridgeD hbd).mp hf) (by omega)
      exact hcur ⟨e1.symm, e2.symm⟩
  have hiU : (if 0 < my.toNat ∧ freePred maze w (mx.toNat, my.toNat - 1) then 1 else 0) =
      if cx = mx ∧ cy = my - 1 then 1 else 0 := by
    by_cases hcur : cx = mx ∧ cy = my - 1
    · have hpos : 0 < my.toNat := by omega
      have bridgeU : freePred maze w (mx.toNat, my.toNat - 1) ↔
          isFreeCell maze w h ⟨mx, my - 1⟩ := by
        rw [@freePred_iff_isFree_mk maze w h mx.toNat (my.toNat - 1) (by omega) (by omega)]
        have e : (⟨((mx.toNat : Nat) : Int), ((my.toNat - 1 : Nat) : Int)⟩ : Point) =
            ⟨mx, my - 1⟩ := by
          rw [point_mk_eq]
          omega
        rw [e]
      rw [if_pos hcur, if_pos ⟨hpos, bridgeU.mpr (by
        have e : (⟨mx, my - 1⟩ : Point) = ⟨cx, cy⟩ := by rw [point_mk_eq]; omega
        rw [e]; exact hcfree)⟩]
    · rw [if_neg hcur, if_neg ?_]
      rintro ⟨hbd, hf⟩
      have bridgeU : freePred maze w (mx.toNat, my.toNat - 1) ↔
          isFreeCell maze w h ⟨mx, my - 1⟩ := by
        rw [@freePred_iff_isFree_mk maze w h mx.toNat (my.toNat - 1) (by omega) (by omega)]
        have e : (⟨((mx.toNat : Nat) : Int), ((my.toNat - 1 : Nat) : Int)⟩ : Point) =
            ⟨mx, my - 1⟩ := by
          rw [point_mk_eq]
          omega
        rw [e]
      obtain ⟨e1, e2⟩ := huniq mx (my - 1) (bridgeU.mp hf) (by omega)
      exact hcur ⟨e1.symm, e2.symm⟩
  rw [hiR, hiL, hiD, hiU]
  have hone : (cx = mx + 1 ∧ cy = my) ∨ (cx = mx - 1 ∧ cy = my) ∨
      (cx = mx ∧ cy = my + 1) ∨ (cx = mx ∧ cy = my - 1) := by omega
  rcases hone with hcase | hcase | hcase | hcase <;>
    · rw [if_pos hcase]
      rw [if_neg (by omega), if_neg (by omega), if_neg (by omega)] <;> omega

/-- Membership in the neighbour list of the backtracker: the coordinates, the
bounds and the unvisitedness that the filter guarantees. -/
lemma mazeNeighbors_mem {width height : Nat} {visited : List Point} {c : Point}
    {nb : Point × Int × Int} (hmem : nb ∈ mazeNeighbors width height visited c) :
    nb.2 ∈ mazeDirs ∧ nb.1.x = c.x + nb.2.1 ∧ nb.1.y = c.y + nb.2.2 ∧
    0 < nb.1.x ∧ nb.1.x < (width : Int) - 1 ∧
    0 < nb.1.y ∧ nb.1.y < (height : Int) - 1 ∧ nb.1 ∉ visited := by
  unfold mazeNeighbors at hmem
  rw [List.mem_filterMap] at hmem
  obtain ⟨d, hd, hsome⟩ := hmem
  dsimp only at hsome
  by_cases hcond : 0 < c.x + d.1 ∧ c.x + d.1 < (width : Int) - 1 ∧ 0 < c.y + d.2 ∧
      c.y + d.2 < (height : Int) - 1 ∧ (⟨c.x + d.1, c.y + d.2⟩ : Point) ∉ visited
  · rw [if_pos hcond] at hsome
    obtain rfl := Option.some.inj hsome
    dsimp only
    exact ⟨hd, rfl, rfl, hcond.1, hcond.2.1, hcond.2.2.1, hcond.2.2.2.1, hcond.2.2.2.2⟩
  · rw [if_neg hcond] at hsome
    exact absurd hsome (by simp)

/-- Bridge between the Nat-indexed freeness predicate of the counting lemmas
and the Int-indexed cell freeness. -/
lemma freePred_toNat_iff {maze : Buffer} (w h : Nat) (x y : Int)
    (hb : 0 ≤ x ∧ x < (w : Int) ∧ 0 ≤ y ∧ y < (h : Int)) :
    freePred maze w (x.toNat, y.toNat) ↔ isFreeCell maze w h ⟨x, y⟩ := by
  rw [@freePred_iff_isFree_mk maze w h x.toNat y.toNat (by omega) (by omega)]
  have e : (⟨((x.toNat : Nat) : Int), ((y.toNat : Nat) : Int)⟩ : Point) = ⟨x, y⟩ := by
    rw [point_mk_eq]
    omega
  rw [e]

set_option maxHeartbeats 2000000 in
/-- One carving iteration of the recursive backtracker preserves the maze
invariant: pushing an unvisited step-2 neighbour, opening the wall midpoint and
the neighbour cell. -/
lemma mazeInv_step {width height : Nat} {current : Point} {rest visited : List Point}
    {maze : Buffer} (inv : MazeInv width height (current :: rest) visited maze)
    {nb : Point × Int × Int} (hmem : nb ∈ mazeNeighbors width height visited current) :
    MazeInv width height (nb.1 :: current :: rest) (nb.1 :: visited)
      ((maze.set
          (((current.y + nb.2.2 / 2) * (width : Int) + (current.x + nb.2.1 / 2)).toNat)
          CELL_FREE).set
        ((nb.1.y * (width : Int) + nb.1.x).toNat) CELL_FREE) := by
  obtain ⟨hd, hnx, hny, hb1, hb2, hb3, hb4, hnv⟩ := mazeNeighbors_mem hmem
  obtain ⟨⟨nx, ny⟩, d1, d2⟩ := nb
  obtain ⟨cx, cy⟩ := current
  dsimp only at hd hnx hny hb1 hb2 hb3 hb4 hnv ⊢
  simp only [mazeDirs, List.mem_cons, List.not_mem_nil, or_false, Prod.mk.injEq] at hd
  have hcvis : (⟨cx, cy⟩ : Point) ∈ visited := inv.stack_sub _ (List.mem_cons_self _ _)
  obtain ⟨hcfree, hcx2, hcy2⟩ := (inv.visited_iff ⟨cx, cy⟩).mp hcvis
  have hcx2 : cx % 2 = 1 := hcx2
  have hcy2 : cy % 2 = 1 := hcy2
  obtain ⟨hc1, hc2, hc3, hc4⟩ := inv.interior _ hcfree
  have hc1 : 1 ≤ cx := hc1
  have hc2 : cx ≤ (width : Int) - 2 := hc2
  have hc3 : 1 ≤ cy := hc3
  have hc4 : cy ≤ (height : Int) - 2 := hc4
  have hIm : ((cy + d2 / 2) * (width : Int) + (cx + d1 / 2)).toNat
      = (cy + d2 / 2).toNat * width + (cx + d1 / 2).toNat :=
    intIndex_toNat (by omega) (by omega)
  have hIn : (ny * (width : Int) + nx).toNat = ny.toNat * width + nx.toNat :=
    intIndex_toNat (by omega) (by omega)
  rw [hIm, hIn]
  set maze1 : Buffer :=
    maze.set ((cy + d2 / 2).toNat * width + (cx + d1 / 2).toNat) CELL_FREE with hM1
  set B2 : Buffer := maze1.set (ny.toNat * width + nx.toNat) CELL_FREE with hB2
  have hnNotFree : ¬ isFreeCell maze width height ⟨nx, ny⟩ := by
    intro hf
    exact hnv ((inv.visited_iff ⟨nx, ny⟩).mpr
      ⟨hf, by show nx % 2 = 1; omega, by show ny % 2 = 1; omega⟩)
  have hmNotFree : ¬ isFreeCell maze width height ⟨cx + d1 / 2, cy + d2 / 2⟩ := by
    intro hf
    rcases hd with ⟨e1, e2⟩ | ⟨e1, e2⟩ | ⟨e1, e2⟩ | ⟨e1, e2⟩
    · have hmid := inv.mid_vert _ hf (by show (cy + d2 / 2) % 2 = 0; omega)
      apply hnv
      have e : (⟨nx, ny⟩ : Point) = ⟨cx + d1 / 2, (cy + d2 / 2) - 1⟩ := by
        rw [point_mk_eq]
        constructor <;> omega
      rw [e]
      exact hmid.1
    · have hmid := inv.mid_horiz _ hf (by show (cx + d1 / 2) % 2 = 0; omega)
      apply hnv
      have e : (⟨nx, ny⟩ : Point) = ⟨(cx + d1 / 2) + 1, cy + d2 / 2⟩ := by
        rw [point_mk_eq]
        constructor <;> omega
      rw [e]
      exact hmid.2
    · have hmid := inv.mid_vert _ hf (by show (cy + d2 / 2) % 2 = 0; omega)
      apply hnv
      have e : (⟨nx, ny⟩ : Point) = ⟨cx + d1 / 2, (cy + d2 / 2) + 1⟩ := by
        rw [point_mk_eq]
        constructor <;> omega
      rw [e]
      exact hmid.2
    · have hmid := inv.mid_horiz _ hf (by show (cx + d1 / 2) % 2 = 0; omega)
      apply hnv
      have e : (⟨nx, ny⟩ : Point) = ⟨(cx + d1 / 2) - 1, cy + d2 / 2⟩ := by
        rw [point_mk_eq]
        constructor <;> omega
      rw [e]
      exact hmid.1
  have hUniqM : ∀ x y : Int, isFreeCell maze width height ⟨x, y⟩ →
      (x - (cx + d1 / 2)).natAbs + (y - (cy + d2 / 2)).natAbs = 1 → x = cx ∧ y = cy := by
    intro x y hf hadjm
    by_cases hqn : x = nx ∧ y = ny
    · exfalso
      apply hnNotFree
      have e : (⟨nx, ny⟩ : Point) = ⟨x, y⟩ := by
        rw [point_mk_eq]
        constructor <;> omega
      rw [e]
      exact hf
    · have hpar2 : ¬ (x % 2 = 0 ∧ y % 2 = 0) := inv.parity _ hf
      omega
  have hfree1 : ∀ px py : Int, isFreeCell maze1 width height ⟨px, py⟩ ↔
      (isFreeCell maze width height ⟨px, py⟩ ∨ (px = cx + d1 / 2 ∧ py = cy + d2 / 2)) := by
    intro px py
    rw [hM1, ← hIm]
    exact isFreeCell_set_mk inv.hlen (cx + d1 / 2) (cy + d2 / 2) px py
      ⟨by omega, by omega, by omega, by omega⟩
  have hlen1 : maze1.length = width * height := by
    rw [hM1, List.length_set]
    exact inv.hlen
  have hfree2 : ∀ px py : Int, isFreeCell B2 width height ⟨px, py⟩ ↔
      (isFreeCell maze width height ⟨px, py⟩ ∨ (px = cx + d1 / 2 ∧ py = cy + d2 / 2) ∨
        (px = nx ∧ py = ny)) := by
    intro px py
    rw [hB2, ← hIn,
      isFreeCell_set_mk hlen1 nx ny px py ⟨by omega, by omega, by omega, by omega⟩,
      hfree1 px py, or_assoc]
  have hUniqN : ∀ x y : Int, isFreeCell maze1 width height ⟨x, y⟩ →
      (x - nx).natAbs + (y - ny).natAbs = 1 → x = cx + d1 / 2 ∧ y = cy + d2 / 2 := by
    intro x y hf1 hadjn
    rcases (hfree1 x y).mp hf1 with hf | hgoal
    · exfalso
      have hnxodd : nx % 2 = 1 := by omega
      have hnyodd : ny % 2 = 1 := by omega
      by_cases hxe : x % 2 = 0
      · have hmid := inv.mid_horiz _ hf hxe
        rcases (show x = nx + 1 ∨ x = nx - 1 by omega) with hE | hE
        · apply hnv
          have e : (⟨nx, ny⟩ : Point) = ⟨x - 1, y⟩ := by
            rw [point_mk_eq]
            constructor <;> omega
          rw [e]
          exact hmid.1
        · apply hnv
          have e : (⟨nx, ny⟩ : Point) = ⟨x + 1, y⟩ := by
            rw [point_mk_eq]
            constructor <;> omega
          rw [e]
          exact hmid.2
      · have hye : y % 2 = 0 := by omega
        have hmid := inv.mid_vert _ hf hye
        rcases (show y = ny + 1 ∨ y = ny - 1 by omega) with hE | hE
        · apply hnv
          have e : (⟨nx, ny⟩ : Point) = ⟨x, y - 1⟩ := by
            rw [point_mk_eq]
            constructor <;> omega
          rw [e]
          exact hmid.1
        · apply hnv
          have e : (⟨nx, ny⟩ : Point) = ⟨x, y + 1⟩ := by
            rw [point_mk_eq]
            constructor <;> omega
          rw [e]
          exact hmid.2
    · exact hgoal
  have hfpM : ¬ freePred maze width ((cx + d1 / 2).toNat, (cy + d2 / 2).toNat) := by
    intro hf
    exact hmNotFree ((freePred_toNat_iff width height (cx + d1 / 2) (cy + d2 / 2)
      ⟨by omega, by omega, by omega, by omega⟩).mp hf)
  have hfpN1 : ¬ freePred maze1 width (nx.toNat, ny.toNat) := by
    intro hf
    have hf1 := (freePred_toNat_iff width height nx ny
      ⟨by omega, by omega, by omega, by omega⟩).mp hf
    rcases (hfree1 nx ny).mp hf1 with hf2 | hm
    · exact hnNotFree hf2
    · omega
  have hCnt1 : freeCount maze1 width height = freeCount maze width height + 1 := by
    rw [hM1]
    exact freeCount_set inv.hlen ((cx + d1 / 2).toNat, (cy + d2 / 2).toNat)
      ⟨by omega, by omega⟩ hfpM
  have hCnt2 : freeCount B2 width height = freeCount maze1 width height + 1 := by
    rw [hB2]
    exact freeCount_set hlen1 (nx.toNat, ny.toNat) ⟨by omega, by omega⟩ hfpN1
  have hEc1 : edgeCount maze1 width height = edgeCount maze width height + 1 := by
    have hset := edgeCount_set inv.hlen ((cx + d1 / 2).toNat, (cy + d2 / 2).toNat)
      ⟨by omega, by omega⟩ hfpM
    have hind := @edge_indicators_one maze width height (cx + d1 / 2) (cy + d2 / 2) cx cy
      ⟨by omega, by omega, by omega, by omega⟩ ⟨by omega, by omega, by omega, by omega⟩
      (by omega) hcfree hUniqM
    rw [hM1]
    dsimp only at hset hind
    omega
  have hmfree1 : isFreeCell maze1 width height ⟨cx + d1 / 2, cy + d2 / 2⟩ :=
    (hfree1 _ _).mpr (Or.inr ⟨rfl, rfl⟩)
  have hEc2 : edgeCount B2 width height = edgeCount maze1 width height + 1 := by
    have hset := edgeCount_set hlen1 (nx.toNat, ny.toNat) ⟨by omega, by omega⟩ hfpN1
    have hind := @edge_indicators_one maze1 width height nx ny (cx + d1 / 2) (cy + d2 / 2)
      ⟨by omega, by omega, by omega, by omega⟩ ⟨by omega, by omega, by omega, by omega⟩
      (by omega) hmfree1 hUniqN
    rw [hB2]
    dsimp only at hset hind
    omega
  refine ⟨?_, ?_, ?_, ?_, ?_, ?_, ?_, ?_, ?_, ?_, ?_⟩
  · rw [hB2, List.length_set]
    exact hlen1
  · intro k
    rw [hB2]
    by_cases hk2 : k = ny.toNat * width + nx.toNat
    · subst hk2
      left
      exact getD_set_eq _ _ _
        (by rw [hlen1]; exact index_lt_size (by omega) (by omega))
    · rw [getD_set_ne _ _ _ _ (by omega), hM1]
      by_cases hk1 : k = (cy + d2 / 2).toNat * width + (cx + d1 / 2).toNat
      · subst hk1
        left
        exact getD_set_eq _ _ _
          (by rw [inv.hlen]; exact index_lt_size (by omega) (by omega))
      · rw [getD_set_ne _ _ _ _ (by omega)]
        exact inv.vals k
  · intro p hp
    rcases List.mem_cons.mp hp with rfl | hp2
    · exact List.mem_cons_self _ _
    · exact List.mem_cons_of_mem _ (inv.stack_sub p hp2)
  · intro p
    obtain ⟨px, py⟩ := p
    rw [hfree2 px py]
    constructor
    · intro hpmem
      rcases List.mem_cons.mp hpmem with heq | hv
      · have h1 := congrArg Point.x heq
        have h2 := congrArg Point.y heq
        dsimp only at h1 h2
        exact ⟨Or.inr (Or.inr ⟨h1, h2⟩), by show px % 2 = 1; omega, by show py % 2 = 1; omega⟩
      · obtain ⟨hfr, hp1, hp2⟩ := (inv.visited_iff ⟨px, py⟩).mp hv
        exact ⟨Or.inl hfr, hp1, hp2⟩
    · rintro ⟨hfr, hpx2, hpy2⟩
      have hpx2 : px % 2 = 1 := hpx2
      have hpy2 : py % 2 = 1 := hpy2
      rcases hfr with hold | hm | hn
      · exact List.mem_cons_of_mem _ ((inv.visited_iff ⟨px, py⟩).mpr ⟨hold, hpx2, hpy2⟩)
      · exfalso
        omega
      · have e : (⟨px, py⟩ : Point) = ⟨nx, ny⟩ := by
          rw [point_mk_eq]
          exact hn
        rw [e]
        exact List.mem_cons_self _ _
  · intro p hp
    obtain ⟨px, py⟩ := p
    rcases (hfree2 px py).mp hp with hold | hm | hn
    · exact inv.interior _ hold
    · exact ⟨by show (1 : Int) ≤ px; omega, by show px ≤ (width : Int) - 2; omega,
        by show (1 : Int) ≤ py; omega, by show py ≤ (height : Int) - 2; omega⟩
    · exact ⟨by show (1 : Int) ≤ px; omega, by show px ≤ (width : Int) - 2; omega,
        by show (1 : Int) ≤ py; omega, by show py ≤ (height : Int) - 2; omega⟩
  · intro p hp
    obtain ⟨px, py⟩ := p
    rcases (hfree2 px py).mp hp with hold | hm | hn
    · exact inv.parity _ hold
    · intro hcon
      have h1 : px % 2 = 0 := hcon.1
      have h2 : py % 2 = 0 := hcon.2
      omega
    · intro hcon
      have h1 : px % 2 = 0 := hcon.1
      omega
  · intro p hp hx0
    obtain ⟨px, py⟩ := p
    have hx0 : px % 2 = 0 := hx0
    rcases (hfree2 px py).mp hp with hold | hm | hn
    · obtain ⟨ha, hb⟩ := inv.mid_horiz _ hold hx0
      exact ⟨List.mem_cons_of_mem _ ha, List.mem_cons_of_mem _ hb⟩
    · obtain ⟨hm1', hm2'⟩ := hm
      rcases hd with ⟨e1, e2⟩ | ⟨e1, e2⟩ | ⟨e1, e2⟩ | ⟨e1, e2⟩
      · exfalso
        omega
      · constructor
        · show (⟨px - 1, py⟩ : Point) ∈ _
          have e : (⟨px - 1, py⟩ : Point) = ⟨cx, cy⟩ := by
            rw [point_mk_eq]
            constructor <;> omega
          rw [e]
          exact List.mem_cons_of_mem _ hcvis
        · show (⟨px + 1, py⟩ : Point) ∈ _
          have e : (⟨px + 1, py⟩ : Point) = ⟨nx, ny⟩ := by
            rw [point_mk_eq]
            constructor <;> omega
          rw [e]
          exact List.mem_cons_self _ _
      · exfalso
        omega
      · constructor
        · show (⟨px - 1, py⟩ : Point) ∈ _
          have e : (⟨px - 1, py⟩ : Point) = ⟨nx, ny⟩ := by
            rw [point_mk_eq]
            constructor <;> omega
          rw [e]
          exact List.mem_cons_self _ _
        · show (⟨px + 1, py⟩ : Point) ∈ _
          have e : (⟨px + 1, py⟩ : Point) = ⟨cx, cy⟩ := by
            rw [point_mk_eq]
            constructor <;> omega
          rw [e]
          exact List.mem_cons_of_mem _ hcvis
    · exfalso
      obtain ⟨hn1', hn2'⟩ := hn
      omega
  · intro p hp hy0
    obtain ⟨px, py⟩ := p
    have hy0 : py % 2 = 0 := hy0
    rcases (hfree2 px py).mp hp with hold | hm | hn
    · obtain ⟨ha, hb⟩ := inv.mid_vert _ hold hy0
      exact ⟨List.mem_cons_of_mem _ ha, List.mem_cons_of_mem _ hb⟩
    · obtain ⟨hm1', hm2'⟩ := hm
      rcases hd with ⟨e1, e2⟩ | ⟨e1, e2⟩ | ⟨e1, e2⟩ | ⟨e1, e2⟩
      · constructor
        · show (⟨px, py - 1⟩ : Point) ∈ _
          have e : (⟨px, py - 1⟩ : Point) = ⟨nx, ny⟩ := by
            rw [point_mk_eq]
            constructor <;> omega
          rw [e]
          exact List.mem_cons_self _ _
        · show (⟨px, py + 1⟩ : Point) ∈ _
          have e : (⟨px, py + 1⟩ : Point) = ⟨cx, cy⟩ := by
            rw [point_mk_eq]
            constructor <;> omega
          rw [e]
          exact List.mem_cons_of_mem _ hcvis
      · exfalso
        omega
      · constructor
        · show (⟨px, py - 1⟩ : Point) ∈ _
          have e : (⟨px, py - 1⟩ : Point) = ⟨cx, cy⟩ := by
            rw [point_mk_eq]
            constructor <;> omega
          rw [e]
          exact List.mem_cons_of_mem _ hcvis
        · show (⟨px, py + 1⟩ : Point) ∈ _
          have e : (⟨px, py + 1⟩ : Point) = ⟨nx, ny⟩ := by
            rw [point_mk_eq]
            constructor <;> omega
          rw [e]
          exact List.mem_cons_self _ _
      · exfalso
        omega
    · exfalso
      obtain ⟨hn1', hn2'⟩ := hn
      omega
  · have hmono : ∀ q, isFreeCell maze width height q → isFreeCell B2 width height q := by
      intro q hq
      obtain ⟨qx, qy⟩ := q
      exact (hfree2 qx qy).mpr (Or.inl hq)
    intro p hp
    obtain ⟨px, py⟩ := p
    have hRc : ReachFree (isFreeCell B2 width height) ⟨cx, cy⟩ :=
      ReachFree.mono hmono (inv.reach _ hcfree)
    have hfm : isFreeCell B2 width height ⟨cx + d1 / 2, cy + d2 / 2⟩ :=
      (hfree2 _ _).mpr (Or.inr (Or.inl ⟨rfl, rfl⟩))
    have hRm : ReachFree (isFreeCell B2 width height) ⟨cx + d1 / 2, cy + d2 / 2⟩ :=
      hRc.step hfm (by
        show ((cx + d1 / 2) - cx).natAbs + ((cy + d2 / 2) - cy).natAbs = 1
        omega)
    have hfn : isFreeCell B2 width height ⟨nx, ny⟩ :=
      (hfree2 _ _).mpr (Or.inr (Or.inr ⟨rfl, rfl⟩))
    have hRn : ReachFree (isFreeCell B2 width height) ⟨nx, ny⟩ :=
      hRm.step hfn (by
        show (nx - (cx + d1 / 2)).natAbs + (ny - (cy + d2 / 2)).natAbs = 1
        omega)
    rcases (hfree2 px py).mp hp with hold | hm | hn
    · exact ReachFree.mono hmono (inv.reach _ hold)
    · have e : (⟨px, py⟩ : Point) = ⟨cx + d1 / 2, cy + d2 / 2⟩ := by
        rw [point_mk_eq]
        exact hm
      rw [e]
      exact hRm
    · have e : (⟨px, py⟩ : Point) = ⟨nx, ny⟩ := by
        rw [point_mk_eq]
        exact hn
      rw [e]
      exact hRn
  · have hvpos : 0 < visited.length := List.length_pos_of_mem inv.start_mem
    obtain ⟨hFc, hEc⟩ := inv.counts
    constructor
    · simp only [List.length_cons]
      omega
    · simp only [List.length_cons]
      omega
  · exact List.mem_cons_of_mem _ inv.start_mem

/-- The backtracker loop preserves the maze invariant, whatever fuel and
random draws it is run with. -/
lemma mazeLoop_inv {width height : Nat} (rand : Nat → Nat) :
    ∀ (fuel randIdx : Nat) (stack visited : List Point) (maze : Buffer),
    MazeInv width height stack visited maze →
    ∃ stack2 visited2, MazeInv width height stack2 visited2
      (mazeLoop width height rand fuel randIdx stack visited maze) := by
  intro fuel
  induction fuel with
  | zero =>
      intro randIdx stack visited maze inv
      exact ⟨stack, visited, inv⟩
  | succ fuel ih =>
      intro randIdx stack visited maze inv
      rcases stack with _ | ⟨current, rest⟩
      · simp only [mazeLoop]
        exact ⟨[], visited, inv⟩
      · simp only [mazeLoop]
        try dsimp only
        by_cases hpos : 0 < (mazeNeighbors width height visited current).length
        · rw [if_pos hpos]
          have hmemT : (mazeNeighbors width height visited current).getD
              (rand randIdx % (mazeNeighbors width height visited current).length)
              (⟨0, 0⟩, 0, 0) ∈ mazeNeighbors width height visited current :=
            getD_mem hpos _
          generalize hT : (mazeNeighbors width height visited current).getD
              (rand randIdx % (mazeNeighbors width height visited current).length)
              (⟨0, 0⟩, 0, 0) = nb at hmemT ⊢
          have hstep := mazeInv_step inv hmemT
          obtain ⟨hd, hnx, hny, hb1, hb2, hb3, hb4, hnv⟩ := mazeNeighbors_mem hmemT
          obtain ⟨⟨nx, ny⟩, d1, d2⟩ := nb
          dsimp only at hd hnx hny hb1 hb2 hb3 hb4 hnv hstep ⊢
          simp only [mazeDirs, List.mem_cons, List.not_mem_nil, or_false,
            Prod.mk.injEq] at hd
          have hcvis : current ∈ visited := inv.stack_sub _ (List.mem_cons_self _ _)
          have hcfree := ((inv.visited_iff current).mp hcvis).1
          obtain ⟨hc1, hc2, hc3, hc4⟩ := inv.interior _ hcfree
          rw [if_pos (show 0 ≤ current.x + d1 / 2 ∧ current.x + d1 / 2 < (width : Int) ∧
                0 ≤ current.y + d2 / 2 ∧ current.y + d2 / 2 < (height : Int) by omega),
            if_pos (show (0 : Int) ≤ nx ∧ nx < (width : Int) ∧ (0 : Int) ≤ ny ∧
                ny < (height : Int) by omega)]
          exact ih _ _ _ _ hstep
        · rw [if_neg hpos]
          exact ih randIdx rest visited maze
            ⟨inv.hlen, inv.vals, fun p hp => inv.stack_sub p (List.mem_cons_of_mem _ hp),
             inv.visited_iff, inv.interior, inv.parity, inv.mid_horiz, inv.mid_vert,
             inv.reach, inv.counts, inv.start_mem⟩

/-- C6: for every width ≥ 3, height ≥ 3 and every sequence of random choices,
generateMaze produces a perfect maze: the start cell (1,1) is FREE, every FREE
cell is reachable from (1,1) through FREE cells via 4-connectivity, the free
adjacency graph has exactly one edge fewer than it has FREE cells (a tree), and
every cell of row 0, row height-1, column 0 or column width-1 is OCCUPIED. -/
theorem maze_perfection (width height : Nat) (rand : Nat → Nat)
    (hw : 3 ≤ width) (hh : 3 ≤ height) :
    (isFreeCell (generateMaze width height rand) width height ⟨1, 1⟩ ∧
      ∀ p, isFreeCell (generateMaze width height rand) width height p →
        ReachFree (isFreeCell (generateMaze width height rand) width height) p) ∧
    freeCount (generateMaze width height rand) width height =
      edgeCount (generateMaze width height rand) width height + 1 ∧
    (∀ x y : Nat, x < width → y < height →
      (x = 0 ∨ x = width - 1 ∨ y = 0 ∨ y = height - 1) →
      (generateMaze width height rand).getD (y * width + x) 0 = CELL_OCCUPIED) := by
  have hinit := mazeInv_init width height hw hh
  have hgen : generateMaze width height rand =
      mazeLoop width height rand (2 * width * height + 2) 0 [⟨1, 1⟩] [⟨1, 1⟩]
        ((List.replicate (width * height) CELL_OCCUPIED).set (1 * width + 1) CELL_FREE) := by
    unfold generateMaze
    rw [if_neg (show ¬((width : Int) ≤ 1 ∨ (height : Int) ≤ 1) by omega)]
    have e : (((1 : Int)) * (width : Int) + 1).toNat = 1 * width + 1 := by
      rw [intIndex_toNat (by omega) (by omega)]
      simp
    rw [e]
  obtain ⟨s2, v2, inv2⟩ := mazeLoop_inv rand (2 * width * height + 2) 0 [⟨1, 1⟩] [⟨1, 1⟩]
    _ hinit
  rw [hgen]
  refine ⟨⟨?_, ?_⟩, ?_, ?_⟩
  · exact ((inv2.visited_iff _).mp inv2.start_mem).1
  · exact inv2.reach
  · have h1 := inv2.counts.1
    have h2 := inv2.counts.2
    have hp : 0 < v2.length := List.length_pos_of_mem inv2.start_mem
    omega
  · intro x y hx hy hbord
    rcases inv2.vals (y * width + x) with hfree | hocc
    · exfalso
      have hfc : isFreeCell
          (mazeLoop width height rand (2 * width * height + 2) 0 [⟨1, 1⟩] [⟨1, 1⟩]
            ((List.replicate (width * height) CELL_OCCUPIED).set (1 * width + 1) CELL_FREE))
          width height ⟨(x : Int), (y : Int)⟩ := by
        refine ⟨⟨by show (0 : Int) ≤ ((x : Nat) : Int); positivity,
          by show ((x : Nat) : Int) < (width : Int); exact_mod_cast hx,
          by show (0 : Int) ≤ ((y : Nat) : Int); positivity,
          by show ((y : Nat) : Int) < (height : Int); exact_mod_cast hy⟩, ?_⟩
        have e : (((y : Nat) : Int) * (width : Int) + ((x : Nat) : Int)).toNat
            = y * width + x := by
          rw [intIndex_toNat (by positivity) (by positivity)]
          simp
        show _ = CELL_FREE
        rw [e]
        exact hfree
      obtain ⟨hi1, hi2, hi3, hi4⟩ := inv2.interior _ hfc
      have hi1 : (1 : Int) ≤ (x : Int) := hi1
      have hi2 : (x : Int) ≤ (width : Int) - 2 := hi2
      have hi3 : (1 : Int) ≤ (y : Int) := hi3
      have hi4 : (y : Int) ≤ (height : Int) - 2 := hi4
      omega
    · exact hocc

/-- Witness: maze_perfection instantiated on a 3x3 grid with the constant
random stream. -/
theorem maze_perfection_witness :
    (3 ≤ 3) ∧
    ((isFreeCell (generateMaze 3 3 (fun _ => 0)) 3 3 ⟨1, 1⟩ ∧
      ∀ p, isFreeCell (generateMaze 3 3 (fun _ => 0)) 3 3 p →
        ReachFree (isFreeCell (generateMaze 3 3 (fun _ => 0)) 3 3) p) ∧
    freeCount (generateMaze 3 3 (fun _ => 0)) 3 3 =
      edgeCount (generateMaze 3 3 (fun _ => 0)) 3 3 + 1 ∧
    (∀ x y : Nat, x < 3 → y < 3 →
      (x = 0 ∨ x = 3 - 1 ∨ y = 0 ∨ y = 3 - 1) →
      (generateMaze 3 3 (fun _ => 0)).getD (y * 3 + x) 0 = CELL_OCCUPIED)) :=
  ⟨by decide, maze_perfection 3 3 (fun _ => 0) (by decide) (by decide)⟩

end OccupancyEditor
